import Mathlib

/-!
A shallow embedding of the sql-database-projects `Project` model
(`src/extensions/sql-database-projects/src/models/project.ts`) and of the
minimal slice of its collaborators (the xmldom document adapter, the Node
path/fs primitives) that the verified properties need.

The XML tree owned by a `Project` is modelled as a pure inductive tree; the
destructive DOM mutations of the source are rendered as whole-tree
transformations that produce the tree the DOM holds after the call.  The
file system is a flat `path -> contents` association list carried in the
project state, since every operation of the source ends by serializing the
document to `projectFilePath`.
-/

namespace SqlProj

/-! ## Constants

The source file imports its tag names and condition strings from
`../common/constants`, a module that is not part of the sources under
verification.  The values below are therefore modelled from the spec:
they use the spec's descriptive names as the payloads.  Every verified
property depends only on the constants being pairwise distinct strings,
never on their concrete spelling, except for the schema-provider
prefix/suffix whose concrete values appear in a source comment
("a string like Microsoft.Data.Tools.Schema.Sql.Sql130DatabaseSchemaProvider")
and are kept verbatim.
-/

namespace constants

def ItemGroup : String := "ItemGroup"

def Build : String := "Build"

def Folder : String := "Folder"

def Import : String := "Import"

def Project : String := "Project"

def Condition : String := "Condition"

def Include : String := "Include"

def DSP : String := "DSP"

def SqlCmdVariable : String := "SqlCmdVariable"

def DefaultValue : String := "DefaultValue"

def ArtifactReference : String := "ArtifactReference"

def SuppressMissingDependenciesErrors : String := "SuppressMissingDependenciesErrors"

def DatabaseVariableLiteralValue : String := "DatabaseVariableLiteralValue"

def PackageReference : String := "PackageReference"

def Version : String := "Version"

def PrivateAssets : String := "PrivateAssets"

def All : String := "All"

def NETFrameworkAssembly : String := "ReferenceAssemblies"

def VersionNumber : String := "1.0.0"

/-- Modelled from the spec: the fixed "legacy-schema-present" condition. -/
def SqlDbPresentCondition : String := "legacy-schema-present"

/-- Modelled from the spec: the fixed "legacy-schema-absent" condition. -/
def SqlDbNotPresentCondition : String := "legacy-schema-absent"

/-- Modelled from the spec: the "round-trip, schema-present" condition. -/
def RoundTripSqlDbPresentCondition : String := "round-trip-schema-present"

/-- Modelled from the spec: the "round-trip, schema-absent" condition. -/
def RoundTripSqlDbNotPresentCondition : String := "round-trip-schema-absent"

/-- Modelled from the spec: the fixed "modern-runtime" (NetCore) condition. -/
def NetCoreCondition : String := "modern-runtime-condition"

/-- Modelled from the spec: the fixed modern-runtime targets path. -/
def NetCoreTargets : String := "modern-runtime-targets"

/-- Modelled from the spec: the fixed legacy-targets path. -/
def SqlDbTargets : String := "legacy-targets"

/-- Modelled from the spec: the fixed generic-build-targets path. -/
def MsBuildtargets : String := "generic-build-targets"

/-- Schema-provider prefix; value taken from the source comment at
`getMasterDacpac`. -/
def MicrosoftDatatoolsSchemaSqlSql : String := "Microsoft.Data.Tools.Schema.Sql.Sql"

/-- Schema-provider suffix; value taken from the source comment at
`getMasterDacpac`. -/
def databaseSchemaProvider : String := "DatabaseSchemaProvider"

end constants

/-! ## The XML tree (document adapter data model)

`XmlNode` models the xmldom DOM tree: element nodes carry a tag, an
attribute list and an ordered child list; text nodes carry a string.
The `documentElement` of a parsed project file is an `XmlNode`.
-/

inductive XmlNode where
  | element (tag : String) (attrs : List (String × String)) (children : List XmlNode)
  | text (s : String)

mutual

def nodeDecEq : (a b : XmlNode) → Decidable (a = b)
  | .text s, .text t =>
    if h : s = t then .isTrue (by rw [h]) else .isFalse (fun hh => h (by injection hh))
  | .text _, .element _ _ _ => .isFalse (fun h => XmlNode.noConfusion h)
  | .element _ _ _, .text _ => .isFalse (fun h => XmlNode.noConfusion h)
  | .element t1 a1 c1, .element t2 a2 c2 =>
    if ht : t1 = t2 then
      if ha : a1 = a2 then
        match xmlListDecEq c1 c2 with
        | .isTrue hc => .isTrue (by rw [ht, ha, hc])
        | .isFalse hc => .isFalse (fun h => hc (by injection h))
      else .isFalse (fun h => ha (by injection h))
    else .isFalse (fun h => ht (by injection h))

def xmlListDecEq : (a b : List XmlNode) → Decidable (a = b)
  | [], [] => .isTrue rfl
  | [], _ :: _ => .isFalse (fun h => List.noConfusion h)
  | _ :: _, [] => .isFalse (fun h => List.noConfusion h)
  | x :: xs, y :: ys =>
    match nodeDecEq x y with
    | .isTrue h1 =>
      match xmlListDecEq xs ys with
      | .isTrue h2 => .isTrue (by rw [h1, h2])
      | .isFalse h2 => .isFalse (fun h => h2 (by injection h))
    | .isFalse h1 => .isFalse (fun h => h1 (by injection h))

end

instance : DecidableEq XmlNode := nodeDecEq

/-- The child list of a node (`childNodes`); text nodes have none. -/
def childrenOf : XmlNode → List XmlNode
  | .element _ _ cs => cs
  | .text _ => []

/-- The tag of an element node. -/
def tagOf : XmlNode → Option String
  | .element t _ _ => some t
  | .text _ => none

/-- First binding of a name in an attribute list. -/
def attrLookup : List (String × String) → String → Option String
  | [], _ => none
  | (k, v) :: rest, nm => if k = nm then some v else attrLookup rest nm

/-- `getAttribute` as an `Option`. -/
def nodeAttr : XmlNode → String → Option String
  | .element _ attrs _, nm => attrLookup attrs nm
  | .text _, _ => none

/-- xmldom's `getAttribute`: returns the empty string when the attribute is
absent. -/
def getAttrJs (n : XmlNode) (nm : String) : String := (nodeAttr n nm).getD ""

mutual

/-- `getElementsByTagName` seeded at a node itself: the node (if it is an
element with the given tag) followed by all matching descendants, in
document (pre-)order. -/
def elemsByTagN (tg : String) : XmlNode → List XmlNode
  | .text _ => []
  | .element t a cs => (if t = tg then [XmlNode.element t a cs] else []) ++ elemsByTagL tg cs

/-- `elemsByTagN` mapped over a child list, concatenated in order. -/
def elemsByTagL (tg : String) : List XmlNode → List XmlNode
  | [] => []
  | n :: ns => elemsByTagN tg n ++ elemsByTagL tg ns

end

/-- DOM `element.getElementsByTagName`: matching proper descendants of a
node, in document order. -/
def childElemsByTag (tg : String) (n : XmlNode) : List XmlNode := elemsByTagL tg (childrenOf n)

/-- Number of elements with a given tag in the subtree rooted at `n`
(including `n`). -/
def countTagN (tg : String) (n : XmlNode) : Nat := (elemsByTagN tg n).length

/-- `appendChild` on the document element. -/
def appendChildRoot (c : XmlNode) : XmlNode → XmlNode
  | .element t a cs => .element t a (cs ++ [c])
  | other => other

/-- `replaceChild(newN, oldN)` on the document element: replaces the first
child structurally equal to `oldN` (structural equality stands in for DOM
node identity; at every call site we verify, the old node occurs exactly
once among the children). -/
def replaceFirstChild (newN oldN : XmlNode) : List XmlNode → List XmlNode
  | [] => []
  | c :: cs => if c = oldN then newN :: cs else c :: replaceFirstChild newN oldN cs

def replaceChildRoot (newN oldN : XmlNode) : XmlNode → XmlNode
  | .element t a cs => .element t a (replaceFirstChild newN oldN cs)
  | other => other

mutual

/-- Append `newNode` to the child list of the first node (in document
pre-order) satisfying `p`; `none` when no node matches. -/
def appendFirstN (p : XmlNode → Bool) (newNode : XmlNode) : XmlNode → Option XmlNode
  | .text _ => none
  | .element t a cs =>
    if p (.element t a cs) then some (.element t a (cs ++ [newNode]))
    else
      match appendFirstL p newNode cs with
      | some cs' => some (.element t a cs')
      | none => none

def appendFirstL (p : XmlNode → Bool) (newNode : XmlNode) : List XmlNode → Option (List XmlNode)
  | [] => none
  | n :: ns =>
    match appendFirstN p newNode n with
    | some n' => some (n' :: ns)
    | none =>
      match appendFirstL p newNode ns with
      | some ns' => some (n :: ns')
      | none => none

end

/-- The predicate `findOrCreateItemGroup` scans for: an `ItemGroup` element
that already contains at least one descendant of the requested tag. -/
def groupHasChildOfTag (tg : String) (n : XmlNode) : Bool :=
  match n with
  | .element t _ _ => t = constants.ItemGroup && !(childElemsByTag tg n).isEmpty
  | .text _ => false

/-- `findOrCreateItemGroup(containedTag)` followed by `appendChild(newNode)`
on the returned group, expressed as one tree transformation on the
document element.  With a `containedTag`, the first matching item group
(document order over the root's proper descendants) receives the new node;
otherwise — and always when called with no tag — a fresh `ItemGroup`
holding the new node is appended at the end of the document element. -/
def findOrCreateItemGroupAppend (containedTag : Option String) (newNode : XmlNode) :
    XmlNode → XmlNode
  | .element t a cs =>
    match containedTag with
    | some tg =>
      match appendFirstL (groupHasChildOfTag tg) newNode cs with
      | some cs' => .element t a cs'
      | none => .element t a (cs ++ [XmlNode.element constants.ItemGroup [] [newNode]])
    | none => .element t a (cs ++ [XmlNode.element constants.ItemGroup [] [newNode]])
  | other => other

/-! ## Serialization and parsing (document adapter byte interface)

Modelled from the spec: the Document Adapter's `serialize(tree) -> bytes`
and `parse(bytes) -> Tree` (xmldom's `XMLSerializer`/`DOMParser`, which are
an external dependency, not part of the sources under verification).
Serialization flattens the tree into a lexical token stream and renders
each token as characters; parsing tokenizes the characters and rebuilds
the tree with an explicit stack of open elements.
-/

inductive Token where
  | openTag (t : String) (attrs : List (String × String))
  | closeTag (t : String)
  | textTok (s : String)
deriving DecidableEq

mutual

def nodeTokens : XmlNode → List Token
  | .text s => [.textTok s]
  | .element t a cs => .openTag t a :: (listTokens cs ++ [.closeTag t])

def listTokens : List XmlNode → List Token
  | [] => []
  | n :: ns => nodeTokens n ++ listTokens ns

end

def renderAttrsChars : List (String × String) → List Char
  | [] => []
  | (n, v) :: rest => ' ' :: (n.data ++ '=' :: '"' :: (v.data ++ '"' :: renderAttrsChars rest))

def renderToken : Token → List Char
  | .openTag t a => '<' :: (t.data ++ renderAttrsChars a ++ ['>'])
  | .closeTag t => '<' :: '/' :: (t.data ++ ['>'])
  | .textTok s => s.data

def renderTokens : List Token → List Char
  | [] => []
  | t :: ts => renderToken t ++ renderTokens ts

/-- `XMLSerializer.serializeToString`. -/
def serializeXml (n : XmlNode) : String := String.mk (renderTokens (nodeTokens n))

/-- Characters allowed in tag and attribute names. -/
def isNameChar (c : Char) : Bool := c.isAlphanum

/-- Attribute-list lexer: consumes ` name="value"` groups up to and
including the closing `>` of an open tag.  The fuel argument only bounds
recursion depth; one unit per attribute always suffices. -/
def lexAttrs : Nat → List Char → Option (List (String × String) × List Char)
  | _, [] => none
  | fuel, c :: cs =>
    if c = '>' then some ([], cs)
    else if c = ' ' then
      match fuel with
      | 0 => none
      | fuel' + 1 =>
        let nm := cs.takeWhile isNameChar
        if nm = [] then none
        else
          match cs.dropWhile isNameChar with
          | '=' :: '"' :: cs1 =>
            let v := cs1.takeWhile (fun x => x ≠ '"')
            match cs1.dropWhile (fun x => x ≠ '"') with
            | '"' :: cs2 =>
              match lexAttrs fuel' cs2 with
              | some (as, r) => some ((String.mk nm, String.mk v) :: as, r)
              | none => none
            | _ => none
          | _ => none
    else none

/-- Tokenizer: splits a character stream into open-tag, close-tag and text
tokens.  The fuel argument only bounds recursion depth; one unit per token
always suffices. -/
def lexTokens : Nat → List Char → Option (List Token)
  | _, [] => some []
  | 0, _ :: _ => none
  | fuel + 1, c :: cs =>
    if c = '<' then
      match cs with
      | [] => none
      | d :: cs1 =>
        if d = '/' then
          match cs1.dropWhile isNameChar with
          | '>' :: cs2 =>
            (lexTokens fuel cs2).map
              (fun ts => Token.closeTag (String.mk (cs1.takeWhile isNameChar)) :: ts)
          | _ => none
        else
          let nm := cs.takeWhile isNameChar
          if nm = [] then none
          else
            match lexAttrs fuel (cs.dropWhile isNameChar) with
            | some (attrs, cs2) =>
              (lexTokens fuel cs2).map (fun ts => Token.openTag (String.mk nm) attrs :: ts)
            | none => none
    else
      (lexTokens fuel ((c :: cs).dropWhile (fun x => x ≠ '<'))).map
        (fun ts => Token.textTok (String.mk ((c :: cs).takeWhile (fun x => x ≠ '<'))) :: ts)

def isTextTok : Token → Bool
  | .textTok _ => true
  | _ => false

/-- An open element whose close tag has not been seen yet. -/
structure Frame where
  tag : String
  attrs : List (String × String)
  children : List XmlNode

/-- Stack-machine tree builder over the token stream: `runTokens tokens
stack completed`. -/
def runTokens : List Token → List Frame → List XmlNode → Option (List XmlNode)
  | [], [], acc => some acc
  | [], _ :: _, _ => none
  | .openTag t a :: ts, st, acc => runTokens ts (⟨t, a, []⟩ :: st) acc
  | .textTok s :: ts, [], acc => runTokens ts [] (acc ++ [XmlNode.text s])
  | .textTok s :: ts, f :: st, acc =>
    runTokens ts ({ f with children := f.children ++ [XmlNode.text s] } :: st) acc
  | .closeTag _ :: _, [], _ => none
  | .closeTag t :: ts, f :: st, acc =>
    if f.tag = t then
      match st with
      | [] => runTokens ts [] (acc ++ [XmlNode.element f.tag f.attrs f.children])
      | g :: st' =>
        runTokens ts
          ({ g with children := g.children ++ [XmlNode.element f.tag f.attrs f.children] } :: st')
          acc
    else none

/-- `DOMParser.parseFromString` followed by `.documentElement`: the single
root element of a well-formed document. -/
def parseXml (s : String) : Option XmlNode :=
  match lexTokens (s.data.length + 1) s.data with
  | some ts =>
    match runTokens ts [] [] with
    | some [n] => some n
    | _ => none
  | none => none

/-! ### Well-formedness

The fragment of XML well-formedness under which serialization is
invertible: alphanumeric nonempty tag and attribute names, attribute
values free of the quote character, nonempty text nodes free of `<`, and
no two adjacent text children (the DOM parser would merge them). -/

def nameOk (s : String) : Bool := !s.isEmpty && s.data.all isNameChar

def attrOk (a : String × String) : Bool := nameOk a.1 && a.2.data.all (fun c => c ≠ '"')

def textOk (s : String) : Bool := !s.isEmpty && s.data.all (fun c => c ≠ '<')

def wfToken : Token → Bool
  | .openTag t a => nameOk t && a.all attrOk
  | .closeTag t => nameOk t
  | .textTok s => textOk s

def noAdjacentTexts : List XmlNode → Bool
  | XmlNode.text _ :: XmlNode.text _ :: _ => false
  | _ :: rest => noAdjacentTexts rest
  | [] => true

mutual

def wfNode : XmlNode → Bool
  | .text s => textOk s
  | .element t a cs => nameOk t && a.all attrOk && noAdjacentTexts cs && wfList cs

def wfList : List XmlNode → Bool
  | [] => true
  | n :: ns => wfNode n && wfList ns

end

/-! ## Project model data

`ProjectEntry` flattens the source's `ProjectEntry`/
`DatabaseReferenceProjectEntry` class hierarchy: the two extra fields are
`none` on plain entries, mirroring the `undefined` members an unchecked
TypeScript downcast of a plain entry observes. -/

inductive EntryType where
  | File
  | Folder
  | DatabaseReference
deriving DecidableEq, Repr

inductive DatabaseReferenceLocation where
  | sameDatabase
  | differentDatabaseSameServer
deriving DecidableEq, Repr

structure ProjectEntry where
  fsUri : String
  relativePath : String
  type : EntryType
  databaseLocation : Option DatabaseReferenceLocation
  name : Option String
deriving DecidableEq, Repr

/-- The error taxonomy of the spec (§7), plus `typeError` for untyped
JavaScript runtime failures (property access on `undefined`/`null`).
The source under `src/` never constructs `missingDefaultValue`; the
constructor exists so that claims about it can be stated. -/
inductive ProjError where
  | parseError
  | missingDefaultValue
  | invalidDataSchemaProvider
  | fileNotFound (path : String)
  | typeError
  | ioError
deriving DecidableEq, Repr

/-- The collections `readProjFile` derives from the document. -/
structure LoadResult where
  files : List ProjectEntry
  importedTargets : List String
  sqlCmdVariables : List (String × Option String)
deriving DecidableEq, Repr

/-- A `Project` instance together with the file system it acts on.
`disk` maps absolute paths to file contents; `dirs` records directories
created or known to exist. -/
structure ProjState where
  projectFilePath : String
  doc : XmlNode
  files : List ProjectEntry
  importedTargets : List String
  sqlCmdVariables : List (String × Option String)
  disk : List (String × String)
  dirs : List String
deriving DecidableEq

/-! ## File-system and path primitives

Modelled from the spec (§6): file-existence check, recursive directory
creation, whole-file read/write/copy, and path joining/dirname.  `joinPath`
is plain concatenation with a separator (no normalization), which is all
the verified properties use. -/

def diskRead (d : List (String × String)) (p : String) : Option String :=
  match d with
  | [] => none
  | (k, v) :: rest => if k = p then some v else diskRead rest p

def diskWrite (d : List (String × String)) (p : String) (v : String) : List (String × String) :=
  match d with
  | [] => [(p, v)]
  | (k, w) :: rest => if k = p then (p, v) :: rest else (k, w) :: diskWrite rest p v

def joinPath (a b : String) : String := a ++ "/" ++ b

/-- `path.dirname`: everything before the last separator. -/
def dirname (p : String) : String :=
  if p.data.contains '/' then String.mk (((p.data.reverse.dropWhile (fun c => c ≠ '/')).drop 1).reverse)
  else "."

/-- `utils.exists`: true when a file or directory exists at the path. -/
def jsExists (s : ProjState) (p : String) : Bool :=
  (diskRead s.disk p).isSome || s.dirs.contains p

/-! ## Target platform resolution -/

/-- `Object.values(TargetPlatform)`: the closed set of known
schema-version tokens. -/
def targetPlatformValues : List String :=
  ["90", "100", "110", "120", "130", "140", "150", "AzureV12"]

/-- JavaScript `s.substring(n)` (clamping). -/
def jsSubstringFrom (s : String) (n : Nat) : String := String.mk (s.data.drop n)

/-- JavaScript `s.substring(0, n)` (clamping; a negative bound clamps
to 0, matched here by truncated `Nat` subtraction at the call site). -/
def jsTake (s : String) (n : Nat) : String := String.mk (s.data.take n)

/-- The embedded version token as `getMasterDacpac` computes it (lines
171-175): strip `MicrosoftDatatoolsSchemaSqlSql.length` leading characters
and `databaseSchemaProvider.length` trailing characters — by position
only, without checking the stripped text. -/
def dspVersionToken (dsp : String) : String :=
  jsTake (jsSubstringFrom dsp constants.MicrosoftDatatoolsSchemaSqlSql.length)
    ((jsSubstringFrom dsp constants.MicrosoftDatatoolsSchemaSqlSql.length).length
      - constants.databaseSchemaProvider.length)

/-- The version-extraction and validation core of `getMasterDacpac`
(lines 171-183): extract the version token and validate it against the
enumerated platform set. -/
def parseVersionDsp (dsp : String) : Except ProjError String :=
  if targetPlatformValues.contains (dspVersionToken dsp) then Except.ok (dspVersionToken dsp)
  else Except.error ProjError.invalidDataSchemaProvider

/-- The pattern the spec describes for a valid schema-provider string: the
fixed prefix, then a member of the platform set, then the fixed suffix.
This follows the spec's words (for comparison with the source-derived
`parseVersionDsp`), not the source. -/
def matchesDspPattern (s : String) : Bool :=
  targetPlatformValues.any
    (fun v => s = constants.MicrosoftDatatoolsSchemaSqlSql ++ v ++ constants.databaseSchemaProvider)

/-- `getMasterDacpac`: validates that the document holds exactly one `DSP`
element with exactly one child, reads that child's `nodeValue`, parses the
version and produces the master-dacpac path.  A non-text single child has
`nodeValue` null, and `null.substring` throws an untyped TypeError. -/
def getMasterDacpac (doc : XmlNode) : Except ProjError String :=
  match elemsByTagN constants.DSP doc with
  | [dspEl] =>
    match childrenOf dspEl with
    | [child] =>
      match child with
      | XmlNode.text dsp =>
        match parseVersionDsp dsp with
        | Except.ok version =>
          Except.ok (joinPath (joinPath (joinPath "$(NETCoreTargetsPath)" "SystemDacpacs") version)
            "master.dacpac")
        | Except.error e => Except.error e
      | XmlNode.element _ _ _ => Except.error ProjError.typeError
    | _ => Except.error ProjError.invalidDataSchemaProvider
  | _ => Except.error ProjError.invalidDataSchemaProvider

/-! ## Project operations -/

def projectFolderPath (s : ProjState) : String := dirname s.projectFilePath

/-- `createProjectEntry`, parameterized over the project file path. -/
def createProjectEntryAt (projectFilePath relativePath : String) (ty : EntryType) : ProjectEntry :=
  { fsUri := joinPath (dirname projectFilePath) relativePath
    relativePath := relativePath
    type := ty
    databaseLocation := none
    name := none }

def createProjectEntry (s : ProjState) (relativePath : String) (ty : EntryType) : ProjectEntry :=
  createProjectEntryAt s.projectFilePath relativePath ty

/-- The entry `addDatabaseReference` constructs
(`new DatabaseReferenceProjectEntry(uri, databaseLocation, databaseName)`,
whose superclass constructor sets an empty relative path). -/
def databaseReferenceEntry (uri : String) (databaseLocation : DatabaseReferenceLocation)
    (databaseName : Option String) : ProjectEntry :=
  { fsUri := uri
    relativePath := ""
    type := EntryType.DatabaseReference
    databaseLocation := some databaseLocation
    name := databaseName }

/-- `serializeToProjFile`: serialize the document and overwrite the project
file on disk. -/
def serializeToProjFile (s : ProjState) : ProjState :=
  { s with disk := diskWrite s.disk s.projectFilePath (serializeXml s.doc) }

/-- `addFileToProjFile`: a `Build` element with the include path, appended
into the item group that already holds `Build` elements (or a fresh one). -/
def addFileToProjFile (doc : XmlNode) (path : String) : XmlNode :=
  findOrCreateItemGroupAppend (some constants.Build)
    (XmlNode.element constants.Build [(constants.Include, path)] []) doc

/-- `addFolderToProjFile`: a `Folder` element with the include path,
appended into the item group that already holds `Folder` elements (or a
fresh one). -/
def addFolderToProjFile (doc : XmlNode) (path : String) : XmlNode :=
  findOrCreateItemGroupAppend (some constants.Folder)
    (XmlNode.element constants.Folder [(constants.Include, path)] []) doc

def suppressMissingDependenciesNode : XmlNode :=
  XmlNode.element constants.SuppressMissingDependenciesErrors [] [XmlNode.text "False"]

/-- `createTextNode` applied to a possibly-undefined string coerces
`undefined` to its string form. -/
def jsTextOf : Option String → String
  | some s => s
  | none => "undefined"

/-- The `ArtifactReference` element built by `addDatabaseReferenceToProjFile`:
condition and include attributes, a `SuppressMissingDependenciesErrors`
child with text `False`, and — exactly when the entry's location is
`differentDatabaseSameServer` — a `DatabaseVariableLiteralValue` child
holding the entry's name. -/
def databaseReferenceNode (entry : ProjectEntry) : XmlNode :=
  XmlNode.element constants.ArtifactReference
    [(constants.Condition, constants.NetCoreCondition), (constants.Include, entry.fsUri)]
    (suppressMissingDependenciesNode ::
      (if entry.databaseLocation = some DatabaseReferenceLocation.differentDatabaseSameServer then
        [XmlNode.element constants.DatabaseVariableLiteralValue [] [XmlNode.text (jsTextOf entry.name)]]
      else []))

/-- `addDatabaseReferenceToProjFile`: the reference element is appended via
`findOrCreateItemGroup()` called with NO contained tag, so a fresh item
group is always created at the end of the document element. -/
def addDatabaseReferenceToProjFile (doc : XmlNode) (entry : ProjectEntry) : XmlNode :=
  findOrCreateItemGroupAppend none (databaseReferenceNode entry) doc

/-- `addToProjFile`: dispatch on the entry type, then serialize.  The
source's `switch` has no `break` after the `EntryType.Folder` case, so a
folder entry falls through into the `EntryType.DatabaseReference` case and
additionally appends an artifact-reference element built from the folder
entry (whose `databaseLocation`/`name` are undefined). -/
def addToProjFile (s : ProjState) (entry : ProjectEntry) : ProjState :=
  let s1 :=
    match entry.type with
    | EntryType.File => { s with doc := addFileToProjFile s.doc entry.relativePath }
    | EntryType.Folder =>
      { s with doc := addDatabaseReferenceToProjFile (addFolderToProjFile s.doc entry.relativePath) entry }
    | EntryType.DatabaseReference => { s with doc := addDatabaseReferenceToProjFile s.doc entry }
  serializeToProjFile s1

/-- `addFolderItem`: ensure the directory exists, append a Folder entry to
`files`, update the document, serialize. -/
def addFolderItem (s : ProjState) (relativeFolderPath : String) : ProjState × ProjectEntry :=
  let absoluteFolderPath := joinPath (projectFolderPath s) relativeFolderPath
  let s1 :=
    if jsExists s absoluteFolderPath then s
    else { s with dirs := s.dirs ++ [absoluteFolderPath] }
  let folderEntry := createProjectEntry s1 relativeFolderPath EntryType.Folder
  let s2 := { s1 with files := s1.files ++ [folderEntry] }
  (addToProjFile s2 folderEntry, folderEntry)

/-- `addScriptItem`: optionally write the supplied contents (a JS truthiness
check, so empty contents are not written), then require the file to exist
on disk — failing with `FileNotFound` before touching `files` or the
document — then append a File entry and update the document. -/
def addScriptItem (s : ProjState) (relativeFilePath : String) (contents : Option String) :
    ProjState × Except ProjError ProjectEntry :=
  let absoluteFilePath := joinPath (projectFolderPath s) relativeFilePath
  let s1 :=
    match contents with
    | some c =>
      if c = "" then s
      else { s with dirs := s.dirs ++ [dirname absoluteFilePath],
                    disk := diskWrite s.disk absoluteFilePath c }
    | none => s
  if jsExists s1 absoluteFilePath then
    let fileEntry := createProjectEntry s1 relativeFilePath EntryType.File
    let s2 := { s1 with files := s1.files ++ [fileEntry] }
    (addToProjFile s2 fileEntry, Except.ok fileEntry)
  else (s1, Except.error (ProjError.fileNotFound absoluteFilePath))

/-- `addDatabaseReference`: build the entry and hand it to `addToProjFile`
(note: the source does not push database-reference entries onto `files`). -/
def addDatabaseReference (s : ProjState) (uri : String)
    (databaseLocation : DatabaseReferenceLocation) (databaseName : Option String) : ProjState :=
  addToProjFile s (databaseReferenceEntry uri databaseLocation databaseName)

/-! ## Round-trip migration -/

/-- `updateImportedTargetsToProjFile`: build the new import element; with an
old node, replace it in place among the document element's children;
without one, append it and record its target in `importedTargets`.  Either
way, serialize. -/
def updateImportedTargetsToProjFile (s : ProjState) (condition projectAttributeVal : String)
    (oldImportNode : Option XmlNode) : ProjState :=
  let importNode := XmlNode.element constants.Import
    [(constants.Condition, condition), (constants.Project, projectAttributeVal)] []
  match oldImportNode with
  | some oldNode => serializeToProjFile { s with doc := replaceChildRoot importNode oldNode s.doc }
  | none =>
    serializeToProjFile
      { s with doc := appendChildRoot importNode s.doc,
               importedTargets := s.importedTargets ++ [projectAttributeVal] }

/-- One iteration of the import-rewrite scan in
`updateImportToSupportRoundTrip`. -/
def roundTripImportStep (s : ProjState) (importTarget : XmlNode) : ProjState :=
  let condition := getAttrJs importTarget constants.Condition
  let projectAttributeVal := getAttrJs importTarget constants.Project
  let s1 :=
    if condition = constants.SqlDbPresentCondition ∧ projectAttributeVal = constants.SqlDbTargets then
      updateImportedTargetsToProjFile s constants.RoundTripSqlDbPresentCondition
        projectAttributeVal (some importTarget)
    else s
  if condition = constants.SqlDbNotPresentCondition ∧ projectAttributeVal = constants.MsBuildtargets then
    updateImportedTargetsToProjFile s1 constants.RoundTripSqlDbNotPresentCondition
      projectAttributeVal (some importTarget)
  else s1

/-- `updateImportToSupportRoundTrip`: scan the import elements, rewriting
the two legacy patterns in place, then append the modern-runtime import.
The source iterates the live `getElementsByTagName` node list by index;
since in-place replacement keeps the list's length and positions stable
and the replacement conditions never re-match a replaced node (the
condition strings are pairwise distinct), iterating the initial snapshot
is equivalent. -/
def updateImportToSupportRoundTrip (s : ProjState) : ProjState :=
  let s1 := (childElemsByTag constants.Import s.doc).foldl roundTripImportStep s
  updateImportedTargetsToProjFile s1 constants.NetCoreCondition constants.NetCoreTargets none

/-- The `PackageReference` element injected by
`updatePackageReferenceInProjFile`. -/
def packageReferenceNode : XmlNode :=
  XmlNode.element constants.PackageReference
    [(constants.Condition, constants.NetCoreCondition),
     (constants.Include, constants.NETFrameworkAssembly),
     (constants.Version, constants.VersionNumber),
     (constants.PrivateAssets, constants.All)] []

def updatePackageReferenceInProjFile (s : ProjState) : ProjState :=
  serializeToProjFile
    { s with doc := findOrCreateItemGroupAppend (some constants.PackageReference) packageReferenceNode s.doc }

def backupPath (p : String) : String := p ++ "_backup"

/-- `updateProjectForRoundTrip`: copy the project file to its `_backup`
sibling (aborting the whole migration, with no state change, if the copy
fails because the source file is unreadable), then rewrite the imports,
then inject the package reference. -/
def updateProjectForRoundTrip (s : ProjState) : ProjState × Option ProjError :=
  match diskRead s.disk s.projectFilePath with
  | none => (s, some ProjError.ioError)
  | some content =>
    let s1 := { s with disk := diskWrite s.disk (backupPath s.projectFilePath) content }
    let s2 := updateImportToSupportRoundTrip s1
    let s3 := updatePackageReferenceInProjFile s2
    (s3, none)

/-! ## Loading -/

/-- JavaScript object insertion for `Record<string, string>`: an existing
key keeps its position and gets the new value; a new key is appended.  A
`none` value models the JS `null` stored when a `DefaultValue` element's
first child is not a text node (its `nodeValue` is null). -/
def objInsert (m : List (String × Option String)) (k : String) (v : Option String) :
    List (String × Option String) :=
  match m with
  | [] => [(k, v)]
  | (k', v') :: rest => if k' = k then (k, v) :: rest else (k', v') :: objInsert rest k v

/-- The file/folder scan of `readProjFile`: for each item group, the
`Build` entries then the `Folder` entries, in document order. -/
def loadFiles (projectFilePath : String) (doc : XmlNode) : List ProjectEntry :=
  (childElemsByTag constants.ItemGroup doc).foldl
    (fun acc itemGroup =>
      acc
        ++ (childElemsByTag constants.Build itemGroup).map
          (fun b => createProjectEntryAt projectFilePath (getAttrJs b constants.Include) EntryType.File)
        ++ (childElemsByTag constants.Folder itemGroup).map
          (fun f => createProjectEntryAt projectFilePath (getAttrJs f constants.Include) EntryType.Folder))
    []

/-- The import scan of `readProjFile`. -/
def loadImportedTargets (doc : XmlNode) : List String :=
  (childElemsByTag constants.Import doc).map (fun imp => getAttrJs imp constants.Project)

/-- The SQLCMD-variable scan of `readProjFile`.  Reading
`getElementsByTagName(DefaultValue)[0].childNodes[0].nodeValue` throws an
untyped TypeError when the variable element has no `DefaultValue`
descendant, or when that element has no children. -/
def readSqlCmdVariables : List XmlNode → List (String × Option String) →
    Except ProjError (List (String × Option String))
  | [], acc => Except.ok acc
  | sqlCmdVar :: rest, acc =>
    match (childElemsByTag constants.DefaultValue sqlCmdVar).head? with
    | none => Except.error ProjError.typeError
    | some dv =>
      match (childrenOf dv).head? with
      | none => Except.error ProjError.typeError
      | some (XmlNode.text varValue) =>
        readSqlCmdVariables rest (objInsert acc (getAttrJs sqlCmdVar constants.Include) (some varValue))
      | some (XmlNode.element _ _ _) =>
        readSqlCmdVariables rest (objInsert acc (getAttrJs sqlCmdVar constants.Include) none)

/-- The collections `readProjFile` derives from an already-parsed document
(lines 44-70 of the source). -/
def loadCollections (projectFilePath : String) (doc : XmlNode) : Except ProjError LoadResult :=
  match readSqlCmdVariables (childElemsByTag constants.SqlCmdVariable doc) [] with
  | Except.ok vars =>
    Except.ok
      { files := loadFiles projectFilePath doc
        importedTargets := loadImportedTargets doc
        sqlCmdVariables := vars }
  | Except.error e => Except.error e

/-- `readProjFile` on a fresh `Project`: read the file, parse it, populate
the collections. -/
def readProjFile (s : ProjState) : Except ProjError ProjState :=
  match diskRead s.disk s.projectFilePath with
  | none => Except.error ProjError.ioError
  | some bytes =>
    match parseXml bytes with
    | none => Except.error ProjError.parseError
    | some doc =>
      match loadCollections s.projectFilePath doc with
      | Except.ok r =>
        Except.ok
          { s with doc := doc,
                   files := s.files ++ r.files,
                   importedTargets := s.importedTargets ++ r.importedTargets,
                   sqlCmdVariables := r.sqlCmdVariables }
      | Except.error e => Except.error e

/-! ## Auxiliary decidability and test fixtures -/

instance {e a : Type} [DecidableEq e] [DecidableEq a] : DecidableEq (Except e a) := fun x y =>
  match x, y with
  | .ok u, .ok v =>
    if h : u = v then .isTrue (by rw [h]) else .isFalse (fun hh => h (by injection hh))
  | .error u, .error v =>
    if h : u = v then .isTrue (by rw [h]) else .isFalse (fun hh => h (by injection hh))
  | .ok _, .error _ => .isFalse (fun h => Except.noConfusion h)
  | .error _, .ok _ => .isFalse (fun h => Except.noConfusion h)

/-- A variable-declaration element that would make `readProjFile` fail:
no `DefaultValue` descendant at all, or one without any child. -/
def lacksDefaultValue (sqlCmdVar : XmlNode) : Bool :=
  match (childElemsByTag constants.DefaultValue sqlCmdVar).head? with
  | none => true
  | some dv => (childrenOf dv).isEmpty

/-- A project state over the given document, with the project file present
on disk with the given original content. -/
def mkProjState (doc : XmlNode) : ProjState :=
  { projectFilePath := "/proj/p.sqlproj"
    doc := doc
    files := []
    importedTargets := []
    sqlCmdVariables := []
    disk := [("/proj/p.sqlproj", "original-bytes")]
    dirs := [] }

/-- Fixture: an empty project document. -/
def emptyDocState : ProjState := mkProjState (XmlNode.element constants.Project [] [])

/-- Fixture: a document whose single item group already contains an
artifact-reference element. -/
def artifactGroupState : ProjState :=
  mkProjState
    (XmlNode.element constants.Project []
      [XmlNode.element constants.ItemGroup []
        [XmlNode.element constants.ArtifactReference [] []]])

/-- Fixture: a schema-provider string with the right shape but a junk
prefix and suffix (35 `a`s, the token "130", 22 `b`s). -/
def junkDsp : String := String.mk (List.replicate 35 'a') ++ "130" ++ String.mk (List.replicate 22 'b')

/-- Fixture: a variable-declaration element lacking its `DefaultValue`
child, inside a project document. -/
def missingDefaultValueDoc : XmlNode :=
  XmlNode.element constants.Project []
    [XmlNode.element constants.SqlCmdVariable [(constants.Include, "v")] []]

/-- Fixture: a well-formed project document exercising every collection
`readProjFile` derives. -/
def sampleProjectDoc : XmlNode :=
  XmlNode.element "Project" [("ToolsVersion", "4.0")]
    [XmlNode.element "ItemGroup" []
      [XmlNode.element "Build" [("Include", "a.sql")] [],
       XmlNode.element "Folder" [("Include", "sub")] []],
     XmlNode.element "Import" [("Condition", "legacy-schema-present"), ("Project", "legacy-targets")] [],
     XmlNode.element "SqlCmdVariable" [("Include", "v")]
      [XmlNode.element "DefaultValue" [] [XmlNode.text "dv"]]]

/-- Fixture: a project whose document holds exactly the two legacy imports
the Round-Trip Migrator rewrites. -/
def legacyImportsState : ProjState :=
  mkProjState
    (XmlNode.element constants.Project []
      [XmlNode.element constants.Import
        [(constants.Condition, constants.SqlDbPresentCondition),
         (constants.Project, constants.SqlDbTargets)] [],
       XmlNode.element constants.Import
        [(constants.Condition, constants.SqlDbNotPresentCondition),
         (constants.Project, constants.MsBuildtargets)] []])

/-! # Verified properties

General lemmas about the embedding, followed by one theorem per claim. -/

theorem elemsByTagL_append (tg : String) (l1 l2 : List XmlNode) :
    elemsByTagL tg (l1 ++ l2) = elemsByTagL tg l1 ++ elemsByTagL tg l2 := by
  induction l1 with
  | nil => simp [elemsByTagL]
  | cons n ns ih => simp [elemsByTagL, ih]

theorem elemsByTagN_ne_nil_of_tag (tg : String) (n : XmlNode) (h : tagOf n = some tg) :
    elemsByTagN tg n ≠ [] := by
  cases n with
  | text s => simp [tagOf] at h
  | element t a cs =>
    simp only [tagOf, Option.some.injEq] at h
    simp [elemsByTagN, h]

theorem elemsByTagN_eq_nil_of_mem (tg : String) (l : List XmlNode)
    (h : elemsByTagL tg l = []) (n : XmlNode) (hn : n ∈ l) : elemsByTagN tg n = [] := by
  induction l with
  | nil => simp at hn
  | cons m ms ih =>
    simp only [elemsByTagL, List.append_eq_nil] at h
    rcases List.mem_cons.mp hn with rfl | hmem
    · exact h.1
    · exact ih h.2 hmem

theorem not_mem_of_elemsByTagL_nil (tg : String) (l : List XmlNode)
    (h : elemsByTagL tg l = []) (n : XmlNode) (htag : tagOf n = some tg) : n ∉ l := by
  intro hmem
  exact elemsByTagN_ne_nil_of_tag tg n htag (elemsByTagN_eq_nil_of_mem tg l h n hmem)

theorem replaceFirstChild_append (newN oldN : XmlNode) (l1 l2 : List XmlNode)
    (h : oldN ∉ l1) :
    replaceFirstChild newN oldN (l1 ++ oldN :: l2) = l1 ++ newN :: l2 := by
  induction l1 with
  | nil => simp [replaceFirstChild]
  | cons c cs ih =>
    have hne : c ≠ oldN := fun hc => h (hc ▸ List.mem_cons_self c cs)
    simp only [List.cons_append, replaceFirstChild, if_neg hne]
    exact congrArg (c :: ·) (ih (fun hm => h (List.mem_cons_of_mem c hm)))

theorem diskRead_diskWrite (d : List (String × String)) (p v q) :
    diskRead (diskWrite d p v) q = if p = q then some v else diskRead d q := by
  induction d with
  | nil =>
    by_cases h : p = q <;> simp [diskWrite, diskRead, h]
  | cons kv rest ih =>
    obtain ⟨k, w⟩ := kv
    by_cases hk : k = p
    · subst hk
      by_cases h : k = q <;> simp [diskWrite, diskRead, h]
    · have h1 : diskWrite ((k, w) :: rest) p v = (k, w) :: diskWrite rest p v := by
        simp [diskWrite, hk]
      rw [h1]
      by_cases hkq : k = q
      · subst hkq
        have hpq : ¬p = k := fun hh => hk hh.symm
        simp [diskRead, hpq]
      · simp [diskRead, hkq, ih]

theorem backupPath_ne (p : String) : backupPath p ≠ p := by
  intro h
  have h2 := congrArg String.length h
  simp only [backupPath, String.length_append] at h2
  have h3 : ("_backup" : String).length = 7 := by decide
  omega

/-! ### Claim C1 (code bug: the `switch` in `addToProjFile` falls through)

`addFolderItem` on an empty document is claimed to add exactly one folder
element (inside the selected item group) and nothing else.  The missing
`break` after the `EntryType.Folder` case makes the call fall through into
the database-reference case, so it additionally appends an
artifact-reference element inside a second fresh item group. -/

/-- C1: evaluation of `addFolderItem "f"` on an empty project document.
The `files` collection gains exactly the Folder entry, but the document
gains, besides the folder element in its item group, a second item group
holding an artifact-reference element built from the folder entry —
contradicting the claim that no other element is added. -/
theorem c1_addFolderItem_falls_through :
    (addFolderItem emptyDocState "f").1.files
        = [createProjectEntryAt "/proj/p.sqlproj" "f" EntryType.Folder]
    ∧ countTagN constants.ArtifactReference emptyDocState.doc = 0
    ∧ (addFolderItem emptyDocState "f").1.doc
        = XmlNode.element constants.Project []
            [XmlNode.element constants.ItemGroup []
              [XmlNode.element constants.Folder [(constants.Include, "f")] []],
             XmlNode.element constants.ItemGroup []
              [databaseReferenceNode (createProjectEntryAt "/proj/p.sqlproj" "f" EntryType.Folder)]]
    ∧ countTagN constants.ArtifactReference (addFolderItem emptyDocState "f").1.doc = 1 := by
  refine ⟨by decide, by decide, by decide, by decide⟩

/-! ### Claim C3 (corrected: the prefix/suffix text is never checked) -/

/-- C3 counterexample: a string made of 35 junk characters, the token
"130" and 22 junk characters does not match the spec's
prefix/token/suffix pattern, yet `parseVersionDsp` accepts it — the
resolver strips by position only, so the claim that every non-matching
string fails with `InvalidSchemaProvider` is false. -/
theorem c3_junk_prefix_accepted :
    matchesDspPattern junkDsp = false ∧ parseVersionDsp junkDsp = Except.ok "130" := by
  refine ⟨by decide, by decide⟩

theorem stringMk_data (s : String) : String.mk s.data = s := by
  cases s
  rfl

theorem stringAppend_data (a b : String) : (a ++ b).data = a.data ++ b.data := by
  cases a
  cases b
  rfl

theorem dspVersionToken_append (p v q : String)
    (hp : p.length = constants.MicrosoftDatatoolsSchemaSqlSql.length)
    (hq : q.length = constants.databaseSchemaProvider.length) :
    dspVersionToken (p ++ v ++ q) = v := by
  have hdata : (p ++ v ++ q).data = p.data ++ (v.data ++ q.data) := by
    rw [stringAppend_data, stringAppend_data, List.append_assoc]
  have hplen : p.data.length = constants.MicrosoftDatatoolsSchemaSqlSql.length := hp
  have hqlen : q.data.length = constants.databaseSchemaProvider.length := hq
  have hdrop : jsSubstringFrom (p ++ v ++ q) constants.MicrosoftDatatoolsSchemaSqlSql.length
      = String.mk (v.data ++ q.data) := by
    unfold jsSubstringFrom
    rw [hdata, ← hplen, List.drop_left]
  have hlen : (String.mk (v.data ++ q.data)).length - constants.databaseSchemaProvider.length
      = v.data.length := by
    show (v.data ++ q.data).length - constants.databaseSchemaProvider.length = v.data.length
    rw [List.length_append, hqlen]
    omega
  unfold dspVersionToken
  rw [hdrop, hlen]
  show String.mk ((v.data ++ q.data).take v.data.length) = v
  rw [List.take_left, stringMk_data]

/-- C3 amended: `parseVersionDsp` on the exact string
prefix + "130" + suffix returns "130", and on prefix + "999" + suffix
fails with `InvalidSchemaProvider`; but acceptance depends only on the
version token cut out by position — any string of prefix-length junk, a
known token, and suffix-length junk is accepted, and a string is rejected
exactly when its positional token is outside the platform set. -/
theorem c3_amended_positional_token :
    parseVersionDsp (constants.MicrosoftDatatoolsSchemaSqlSql ++ "130"
        ++ constants.databaseSchemaProvider) = Except.ok "130"
    ∧ parseVersionDsp (constants.MicrosoftDatatoolsSchemaSqlSql ++ "999"
        ++ constants.databaseSchemaProvider) = Except.error ProjError.invalidDataSchemaProvider
    ∧ (∀ p v q : String, v ∈ targetPlatformValues →
        p.length = constants.MicrosoftDatatoolsSchemaSqlSql.length →
        q.length = constants.databaseSchemaProvider.length →
        parseVersionDsp (p ++ v ++ q) = Except.ok v)
    ∧ (∀ s : String, dspVersionToken s ∉ targetPlatformValues →
        parseVersionDsp s = Except.error ProjError.invalidDataSchemaProvider) := by
  refine ⟨by decide, by decide, ?_, ?_⟩
  · intro p v q hv hp hq
    have htok := dspVersionToken_append p v q hp hq
    unfold parseVersionDsp
    rw [htok, if_pos ?_]
    exact List.elem_eq_true_of_mem hv
  · intro s hs
    unfold parseVersionDsp
    rw [if_neg ?_]
    intro hc
    exact hs (List.mem_of_elem_eq_true hc)

/-- C3 amended, witnessed at a concrete junk-affixed input. -/
theorem c3_amended_positional_token_witness :
    parseVersionDsp (String.mk (List.replicate 35 'x') ++ "140"
        ++ String.mk (List.replicate 22 'y')) = Except.ok "140" :=
  c3_amended_positional_token.2.2.1 (String.mk (List.replicate 35 'x')) "140"
    (String.mk (List.replicate 22 'y')) (by decide) (by decide) (by decide)

/-! ### Claim C4 (confirmed: `addScriptItem` fails atomically) -/

/-- C4: when no contents are supplied and no file exists at the target
path, `addScriptItem` fails with `FileNotFound` and returns the project
state exactly unchanged — `files` and the backing document included. -/
theorem c4_addScriptItem_missing_file (s : ProjState) (relativeFilePath : String)
    (h : jsExists s (joinPath (projectFolderPath s) relativeFilePath) = false) :
    addScriptItem s relativeFilePath none
      = (s, Except.error (ProjError.fileNotFound
          (joinPath (projectFolderPath s) relativeFilePath))) := by
  simp [addScriptItem, h]

/-- C4 witness: the empty-document fixture with a missing script file. -/
theorem c4_addScriptItem_missing_file_witness :
    jsExists emptyDocState (joinPath (projectFolderPath emptyDocState) "missing.sql") = false
    ∧ addScriptItem emptyDocState "missing.sql" none
        = (emptyDocState, Except.error (ProjError.fileNotFound
            (joinPath (projectFolderPath emptyDocState) "missing.sql"))) :=
  ⟨by decide, c4_addScriptItem_missing_file emptyDocState "missing.sql" (by decide)⟩

/-! ### Claim C6 (corrected: the load aborts, but with an untyped error) -/

/-- C6 counterexample: on a document whose variable declaration lacks its
`DefaultValue` child, the load aborts — but with the untyped runtime
TypeError of reading a property of `undefined`, not with the typed
`MissingDefaultValue` the claim names (the source never constructs such an
error). -/
theorem c6_load_error_untyped :
    loadCollections "/proj/p.sqlproj" missingDefaultValueDoc = Except.error ProjError.typeError
    ∧ loadCollections "/proj/p.sqlproj" missingDefaultValueDoc
        ≠ Except.error ProjError.missingDefaultValue := by
  refine ⟨by decide, by decide⟩

theorem readSqlCmdVariables_bad (l : List XmlNode) (acc : List (String × Option String))
    (h : l.any lacksDefaultValue = true) :
    readSqlCmdVariables l acc = Except.error ProjError.typeError := by
  induction l generalizing acc with
  | nil => simp at h
  | cons el rest ih =>
    by_cases hel : lacksDefaultValue el = true
    · unfold lacksDefaultValue at hel
      cases hdv : (childElemsByTag constants.DefaultValue el).head? with
      | none => simp [readSqlCmdVariables, hdv]
      | some dv =>
        rw [hdv] at hel
        simp only at hel
        cases hc : (childrenOf dv).head? with
        | none => simp [readSqlCmdVariables, hdv, hc]
        | some c =>
          rw [List.isEmpty_iff] at hel
          rw [hel] at hc
          simp at hc
    · have hrest : rest.any lacksDefaultValue = true := by
        rcases List.any_eq_true.mp h with ⟨x, hx, hxl⟩
        rcases List.mem_cons.mp hx with rfl | hmem
        · exact absurd hxl hel
        · exact List.any_eq_true.mpr ⟨x, hmem, hxl⟩
      unfold lacksDefaultValue at hel
      cases hdv : (childElemsByTag constants.DefaultValue el).head? with
      | none => simp [hdv] at hel
      | some dv =>
        rw [hdv] at hel
        simp only [Bool.not_eq_true] at hel
        cases hc : (childrenOf dv).head? with
        | none =>
          rw [List.head?_eq_none_iff] at hc
          rw [hc] at hel
          simp [List.isEmpty_nil] at hel
        | some c =>
          cases c with
          | text v =>
            simp only [readSqlCmdVariables, hdv, hc]
            exact ih _ hrest
          | element t a cs =>
            simp only [readSqlCmdVariables, hdv, hc]
            exact ih _ hrest

/-- C6 amended: for every project document in which some
variable-declaration element lacks its nested `DefaultValue` child (or
that child has no children at all), the load fails and aborts — but with
an untyped runtime TypeError, not with the typed `MissingDefaultValue`
error the claim names. -/
theorem c6_amended_load_aborts_untyped (projectFilePath : String) (doc : XmlNode)
    (h : (childElemsByTag constants.SqlCmdVariable doc).any lacksDefaultValue = true) :
    loadCollections projectFilePath doc = Except.error ProjError.typeError := by
  unfold loadCollections
  rw [readSqlCmdVariables_bad _ _ h]

/-- C6 amended, witnessed on the missing-default-value fixture. -/
theorem c6_amended_load_aborts_untyped_witness :
    (childElemsByTag constants.SqlCmdVariable missingDefaultValueDoc).any lacksDefaultValue = true
    ∧ loadCollections "/p/q.sqlproj" missingDefaultValueDoc = Except.error ProjError.typeError :=
  ⟨by decide, c6_amended_load_aborts_untyped "/p/q.sqlproj" missingDefaultValueDoc (by decide)⟩

/-! ### Claim C7 (confirmed: children of the reference element) -/

/-- C7: every reference element produced by `addDatabaseReference` carries
a `SuppressMissingDependenciesErrors` child with text "False"; and it has
a `DatabaseVariableLiteralValue` child — whose text is the supplied name —
exactly when the location is `differentDatabaseSameServer` (in particular,
none when it is `sameDatabase`). -/
theorem c7_reference_element_children (uri nm : String) (loc : DatabaseReferenceLocation) :
    XmlNode.element constants.SuppressMissingDependenciesErrors [] [XmlNode.text "False"]
        ∈ childrenOf (databaseReferenceNode (databaseReferenceEntry uri loc (some nm)))
    ∧ (childrenOf (databaseReferenceNode (databaseReferenceEntry uri loc (some nm)))).filter
          (fun c => tagOf c == some constants.DatabaseVariableLiteralValue)
        = (if loc = DatabaseReferenceLocation.differentDatabaseSameServer then
            [XmlNode.element constants.DatabaseVariableLiteralValue [] [XmlNode.text nm]]
          else []) := by
  cases loc <;>
    simp [databaseReferenceNode, databaseReferenceEntry, suppressMissingDependenciesNode,
      childrenOf, tagOf, jsTextOf, List.filter, constants.SuppressMissingDependenciesErrors,
      constants.DatabaseVariableLiteralValue]

/-! ### Claim C8 (corrected: a fresh item group is always created) -/

/-- C8 counterexample: on a document that already has an item group — one
that even contains an artifact-reference element — `addDatabaseReference`
still creates a second item group, so the claim that no new group is
created when one exists is false. -/
theorem c8_new_group_despite_existing :
    countTagN constants.ItemGroup artifactGroupState.doc = 1
    ∧ countTagN constants.ItemGroup
        (addDatabaseReference artifactGroupState "u"
          DatabaseReferenceLocation.sameDatabase none).doc = 2 := by
  refine ⟨by decide, by decide⟩

/-- C8 amended: `addDatabaseReference` always appends a fresh item group
holding the new reference element at the end of the document element,
regardless of any existing item groups — `addDatabaseReferenceToProjFile`
invokes the group lookup with no contained tag, which unconditionally
creates a new group. -/
theorem c8_amended_always_new_group (s : ProjState) (t : String)
    (a : List (String × String)) (cs : List XmlNode) (uri : String)
    (loc : DatabaseReferenceLocation) (nm : Option String)
    (h : s.doc = XmlNode.element t a cs) :
    (addDatabaseReference s uri loc nm).doc
      = XmlNode.element t a (cs ++ [XmlNode.element constants.ItemGroup []
          [databaseReferenceNode (databaseReferenceEntry uri loc nm)]]) := by
  simp [addDatabaseReference, addToProjFile, databaseReferenceEntry,
    addDatabaseReferenceToProjFile, findOrCreateItemGroupAppend, serializeToProjFile, h]

/-- C8 amended, witnessed on the fixture that already has an item group. -/
theorem c8_amended_always_new_group_witness :
    (addDatabaseReference artifactGroupState "u"
        DatabaseReferenceLocation.sameDatabase none).doc
      = XmlNode.element constants.Project []
          ([XmlNode.element constants.ItemGroup []
              [XmlNode.element constants.ArtifactReference [] []]]
            ++ [XmlNode.element constants.ItemGroup []
              [databaseReferenceNode
                (databaseReferenceEntry "u" DatabaseReferenceLocation.sameDatabase none)]]) :=
  c8_amended_always_new_group artifactGroupState constants.Project []
    [XmlNode.element constants.ItemGroup [] [XmlNode.element constants.ArtifactReference [] []]]
    "u" DatabaseReferenceLocation.sameDatabase none (by decide)

/-! ### Claim C10 (confirmed: references are gated on the NetCore condition) -/

/-- C10: every reference element created by `addDatabaseReference` carries
a `Condition` attribute equal to the fixed modern-runtime (NetCore)
condition string, for both reference locations. -/
theorem c10_reference_netcore_condition (uri : String) (loc : DatabaseReferenceLocation)
    (nm : Option String) :
    nodeAttr (databaseReferenceNode (databaseReferenceEntry uri loc nm)) constants.Condition
      = some constants.NetCoreCondition := by
  rfl

/-! ### Claim C9 (confirmed: backup precedes every modification)

The migration's later steps write only to `projectFilePath`; the lemmas
below track that they leave every other disk entry — in particular the
backup — untouched, and leave `projectFilePath` itself unchanged. -/

theorem serializeToProjFile_preserves (s : ProjState) (k : String)
    (hk : k ≠ s.projectFilePath) :
    (serializeToProjFile s).projectFilePath = s.projectFilePath
    ∧ diskRead (serializeToProjFile s).disk k = diskRead s.disk k := by
  refine ⟨rfl, ?_⟩
  show diskRead (diskWrite s.disk s.projectFilePath (serializeXml s.doc)) k = diskRead s.disk k
  rw [diskRead_diskWrite, if_neg (fun h => hk h.symm)]

theorem updateImportedTargetsToProjFile_preserves (s : ProjState)
    (condition projectAttributeVal : String) (oldImportNode : Option XmlNode) (k : String)
    (hk : k ≠ s.projectFilePath) :
    (updateImportedTargetsToProjFile s condition projectAttributeVal oldImportNode).projectFilePath
        = s.projectFilePath
    ∧ diskRead (updateImportedTargetsToProjFile s condition projectAttributeVal oldImportNode).disk k
        = diskRead s.disk k := by
  cases oldImportNode with
  | none =>
    unfold updateImportedTargetsToProjFile
    exact serializeToProjFile_preserves _ k hk
  | some oldNode =>
    unfold updateImportedTargetsToProjFile
    exact serializeToProjFile_preserves _ k hk

theorem roundTripImportStep_preserves (s : ProjState) (importTarget : XmlNode) (k : String)
    (hk : k ≠ s.projectFilePath) :
    (roundTripImportStep s importTarget).projectFilePath = s.projectFilePath
    ∧ diskRead (roundTripImportStep s importTarget).disk k = diskRead s.disk k := by
  simp only [roundTripImportStep]
  split
  · split
    · have h1 := updateImportedTargetsToProjFile_preserves s
        constants.RoundTripSqlDbPresentCondition (getAttrJs importTarget constants.Project)
        (some importTarget) k hk
      have hk2 : k ≠ (updateImportedTargetsToProjFile s
          constants.RoundTripSqlDbPresentCondition (getAttrJs importTarget constants.Project)
          (some importTarget)).projectFilePath := by
        rw [h1.1]
        exact hk
      have h2 := updateImportedTargetsToProjFile_preserves _
        constants.RoundTripSqlDbNotPresentCondition (getAttrJs importTarget constants.Project)
        (some importTarget) k hk2
      exact ⟨h2.1.trans h1.1, h2.2.trans h1.2⟩
    · exact updateImportedTargetsToProjFile_preserves s _ _ _ k hk
  · split
    · exact updateImportedTargetsToProjFile_preserves s _ _ _ k hk
    · exact ⟨rfl, rfl⟩

theorem foldl_roundTripImportStep_preserves (l : List XmlNode) (s : ProjState) (k : String)
    (hk : k ≠ s.projectFilePath) :
    (l.foldl roundTripImportStep s).projectFilePath = s.projectFilePath
    ∧ diskRead (l.foldl roundTripImportStep s).disk k = diskRead s.disk k := by
  induction l generalizing s with
  | nil => exact ⟨rfl, rfl⟩
  | cons n ns ih =>
    have h1 := roundTripImportStep_preserves s n k hk
    have hk2 : k ≠ (roundTripImportStep s n).projectFilePath := by
      rw [h1.1]
      exact hk
    have h2 := ih (roundTripImportStep s n) hk2
    exact ⟨h2.1.trans h1.1, h2.2.trans h1.2⟩

theorem updateImportToSupportRoundTrip_preserves (s : ProjState) (k : String)
    (hk : k ≠ s.projectFilePath) :
    (updateImportToSupportRoundTrip s).projectFilePath = s.projectFilePath
    ∧ diskRead (updateImportToSupportRoundTrip s).disk k = diskRead s.disk k := by
  unfold updateImportToSupportRoundTrip
  have h1 := foldl_roundTripImportStep_preserves (childElemsByTag constants.Import s.doc) s k hk
  have hk2 : k ≠ ((childElemsByTag constants.Import s.doc).foldl
      roundTripImportStep s).projectFilePath := by
    rw [h1.1]
    exact hk
  have h2 := updateImportedTargetsToProjFile_preserves _
    constants.NetCoreCondition constants.NetCoreTargets none k hk2
  exact ⟨h2.1.trans h1.1, h2.2.trans h1.2⟩

theorem updatePackageReferenceInProjFile_preserves (s : ProjState) (k : String)
    (hk : k ≠ s.projectFilePath) :
    (updatePackageReferenceInProjFile s).projectFilePath = s.projectFilePath
    ∧ diskRead (updatePackageReferenceInProjFile s).disk k = diskRead s.disk k := by
  unfold updatePackageReferenceInProjFile
  exact serializeToProjFile_preserves _ k hk

/-- C9: in every run of the Round-Trip Migrator, if the initial copy of
the project file cannot be made (the file is unreadable), the whole
migration aborts with the state — file system and in-memory tree —
exactly unchanged; and on every successful run the backup file holds the
project file's content from before any modification, no later step
touching it. -/
theorem c9_backup_before_modification (s : ProjState) :
    (diskRead s.disk s.projectFilePath = none →
      updateProjectForRoundTrip s = (s, some ProjError.ioError))
    ∧ (∀ content, diskRead s.disk s.projectFilePath = some content →
        (updateProjectForRoundTrip s).2 = none
        ∧ diskRead (updateProjectForRoundTrip s).1.disk (backupPath s.projectFilePath)
            = some content) := by
  cases hread : diskRead s.disk s.projectFilePath with
  | none =>
    refine ⟨fun _ => ?_, fun content hc => Option.noConfusion hc⟩
    unfold updateProjectForRoundTrip
    rw [hread]
  | some c =>
    refine ⟨fun hn => Option.noConfusion hn, fun content hc => ?_⟩
    injection hc with hc
    subst hc
    have hrun : updateProjectForRoundTrip s
        = (updatePackageReferenceInProjFile (updateImportToSupportRoundTrip
            { s with disk := diskWrite s.disk (backupPath s.projectFilePath) c }), none) := by
      unfold updateProjectForRoundTrip
      rw [hread]
    rw [hrun]
    refine ⟨rfl, ?_⟩
    have hb1 : diskRead (diskWrite s.disk (backupPath s.projectFilePath) c)
        (backupPath s.projectFilePath) = some c := by
      rw [diskRead_diskWrite, if_pos rfl]
    have hkne : backupPath s.projectFilePath
        ≠ ({ s with disk := diskWrite s.disk (backupPath s.projectFilePath) c }
            : ProjState).projectFilePath :=
      backupPath_ne s.projectFilePath
    have h2 := updateImportToSupportRoundTrip_preserves
      { s with disk := diskWrite s.disk (backupPath s.projectFilePath) c }
      (backupPath s.projectFilePath) hkne
    have hkne2 : backupPath s.projectFilePath
        ≠ (updateImportToSupportRoundTrip
            { s with disk := diskWrite s.disk (backupPath s.projectFilePath) c }).projectFilePath := by
      rw [h2.1]
      exact hkne
    have h3 := updatePackageReferenceInProjFile_preserves
      (updateImportToSupportRoundTrip
        { s with disk := diskWrite s.disk (backupPath s.projectFilePath) c })
      (backupPath s.projectFilePath) hkne2
    rw [h3.2, h2.2]
    exact hb1

/-- C9, witnessed on the legacy-imports fixture: the migration succeeds
and the backup holds the original bytes. -/
theorem c9_backup_before_modification_witness :
    diskRead legacyImportsState.disk legacyImportsState.projectFilePath = some "original-bytes"
    ∧ ((updateProjectForRoundTrip legacyImportsState).2 = none
       ∧ diskRead (updateProjectForRoundTrip legacyImportsState).1.disk
           (backupPath legacyImportsState.projectFilePath) = some "original-bytes") :=
  ⟨by decide, (c9_backup_before_modification legacyImportsState).2 "original-bytes" (by decide)⟩

/-! ### Claim C2 (confirmed: the migration's document-level contract)

Supporting lemmas: reading attributes of the import elements, the effect
of `findOrCreateItemGroupAppend` on tag queries, and the two rewrite
steps of the import scan. -/

theorem getAttrJs_element (t : String) (a : List (String × String)) (cs : List XmlNode)
    (nm v : String) (h : attrLookup a nm = some v) :
    getAttrJs (XmlNode.element t a cs) nm = v := by
  simp [getAttrJs, nodeAttr, h]

theorem elemsByTagN_childless (tg t : String) (a : List (String × String)) :
    elemsByTagN tg (XmlNode.element t a [])
      = if t = tg then [XmlNode.element t a []] else [] := by
  simp [elemsByTagN, elemsByTagL]

mutual

theorem appendFirstN_elems_pres (p : XmlNode → Bool) (w : XmlNode) (tg : String)
    (hw : elemsByTagN tg w = []) (hp : ∀ x, p x = true → tagOf x ≠ some tg) :
    ∀ (n n' : XmlNode), appendFirstN p w n = some n' →
      (∀ x ∈ elemsByTagN tg n, childrenOf x = []) →
      elemsByTagN tg n' = elemsByTagN tg n := by
  intro n n' h hchild
  cases n with
  | text s => exact Option.noConfusion h
  | element t a cs =>
    rw [appendFirstN] at h
    by_cases hpn : p (XmlNode.element t a cs) = true
    · rw [if_pos hpn] at h
      injection h with h
      subst h
      have htg : t ≠ tg := by
        intro he
        exact hp _ hpn (by simp [tagOf, he])
      simp [elemsByTagN, htg, elemsByTagL_append, elemsByTagL, hw]
    · rw [if_neg hpn] at h
      cases hrec : appendFirstL p w cs with
      | none => rw [hrec] at h; exact Option.noConfusion h
      | some cs' =>
        rw [hrec] at h
        injection h with h
        subst h
        by_cases htg : t = tg
        · have hmem : XmlNode.element t a cs ∈ elemsByTagN tg (XmlNode.element t a cs) := by
            simp [elemsByTagN, htg]
          have hnilc := hchild _ hmem
          simp only [childrenOf] at hnilc
          subst hnilc
          rw [show appendFirstL p w ([] : List XmlNode) = none from rfl] at hrec
          exact Option.noConfusion hrec
        · have hch2 : ∀ x ∈ elemsByTagL tg cs, childrenOf x = [] := by
            intro x hx
            exact hchild x (by simp [elemsByTagN, htg, hx])
          have hrw := appendFirstL_elems_pres p w tg hw hp cs cs' hrec hch2
          simp [elemsByTagN, htg, hrw]

theorem appendFirstL_elems_pres (p : XmlNode → Bool) (w : XmlNode) (tg : String)
    (hw : elemsByTagN tg w = []) (hp : ∀ x, p x = true → tagOf x ≠ some tg) :
    ∀ (l l' : List XmlNode), appendFirstL p w l = some l' →
      (∀ x ∈ elemsByTagL tg l, childrenOf x = []) →
      elemsByTagL tg l' = elemsByTagL tg l := by
  intro l l' h hchild
  cases l with
  | nil => exact Option.noConfusion h
  | cons n ns =>
    rw [appendFirstL] at h
    cases hn : appendFirstN p w n with
    | some n2 =>
      rw [hn] at h
      injection h with h
      subst h
      have hchN : ∀ x ∈ elemsByTagN tg n, childrenOf x = [] := by
        intro x hx
        exact hchild x (by simp [elemsByTagL, hx])
      have hrw := appendFirstN_elems_pres p w tg hw hp n n2 hn hchN
      simp [elemsByTagL, hrw]
    | none =>
      rw [hn] at h
      cases hns : appendFirstL p w ns with
      | none => rw [hns] at h; exact Option.noConfusion h
      | some ns2 =>
        rw [hns] at h
        injection h with h
        subst h
        have hchT : ∀ x ∈ elemsByTagL tg ns, childrenOf x = [] := by
          intro x hx
          exact hchild x (by simp [elemsByTagL, hx])
        have hrw := appendFirstL_elems_pres p w tg hw hp ns ns2 hns hchT
        simp [elemsByTagL, hrw]

end

mutual

theorem appendFirstN_count (p : XmlNode → Bool) (w : XmlNode) (tg : String) :
    ∀ (n n' : XmlNode), appendFirstN p w n = some n' →
      (elemsByTagN tg n').length = (elemsByTagN tg n).length + (elemsByTagN tg w).length := by
  intro n n' h
  cases n with
  | text s => exact Option.noConfusion h
  | element t a cs =>
    rw [appendFirstN] at h
    by_cases hp : p (XmlNode.element t a cs) = true
    · rw [if_pos hp] at h
      injection h with h
      subst h
      by_cases htg : t = tg <;>
        simp [elemsByTagN, elemsByTagL_append, elemsByTagL, htg] <;> omega
    · rw [if_neg hp] at h
      cases hrec : appendFirstL p w cs with
      | none => rw [hrec] at h; exact Option.noConfusion h
      | some cs' =>
        rw [hrec] at h
        injection h with h
        subst h
        have hl := appendFirstL_count p w tg cs cs' hrec
        by_cases htg : t = tg <;> simp [elemsByTagN, htg, hl] <;> omega

theorem appendFirstL_count (p : XmlNode → Bool) (w : XmlNode) (tg : String) :
    ∀ (l l' : List XmlNode), appendFirstL p w l = some l' →
      (elemsByTagL tg l').length = (elemsByTagL tg l).length + (elemsByTagN tg w).length := by
  intro l l' h
  cases l with
  | nil => exact Option.noConfusion h
  | cons n ns =>
    rw [appendFirstL] at h
    cases hn : appendFirstN p w n with
    | some n2 =>
      rw [hn] at h
      injection h with h
      subst h
      have hcnt := appendFirstN_count p w tg n n2 hn
      simp [elemsByTagL, hcnt]
      omega
    | none =>
      rw [hn] at h
      cases hns : appendFirstL p w ns with
      | none => rw [hns] at h; exact Option.noConfusion h
      | some ns2 =>
        rw [hns] at h
        injection h with h
        subst h
        have hcnt := appendFirstL_count p w tg ns ns2 hns
        simp [elemsByTagL, hcnt]
        omega

end

theorem uitt_replace (s : ProjState) (cond pv : String) (oldN : XmlNode) :
    (updateImportedTargetsToProjFile s cond pv (some oldN)).doc
        = replaceChildRoot (XmlNode.element constants.Import
            [(constants.Condition, cond), (constants.Project, pv)] []) oldN s.doc
    ∧ (updateImportedTargetsToProjFile s cond pv (some oldN)).importedTargets
        = s.importedTargets := by
  exact ⟨rfl, rfl⟩

theorem uitt_append (s : ProjState) (cond pv : String) :
    (updateImportedTargetsToProjFile s cond pv none).doc
        = appendChildRoot (XmlNode.element constants.Import
            [(constants.Condition, cond), (constants.Project, pv)] []) s.doc
    ∧ (updateImportedTargetsToProjFile s cond pv none).importedTargets
        = s.importedTargets ++ [pv] := by
  exact ⟨rfl, rfl⟩

theorem roundTripImportStep_present (s : ProjState) (attrsA : List (String × String))
    (hA1 : attrLookup attrsA constants.Condition = some constants.SqlDbPresentCondition)
    (hA2 : attrLookup attrsA constants.Project = some constants.SqlDbTargets) :
    roundTripImportStep s (XmlNode.element constants.Import attrsA [])
      = updateImportedTargetsToProjFile s constants.RoundTripSqlDbPresentCondition
          constants.SqlDbTargets (some (XmlNode.element constants.Import attrsA [])) := by
  simp only [roundTripImportStep, getAttrJs_element _ _ _ _ _ hA1, getAttrJs_element _ _ _ _ _ hA2]
  rw [if_neg (fun hcontra => absurd hcontra.1 (by decide))]
  rw [if_pos (And.intro trivial trivial)]

theorem roundTripImportStep_notPresent (s : ProjState) (attrsB : List (String × String))
    (hB1 : attrLookup attrsB constants.Condition = some constants.SqlDbNotPresentCondition)
    (hB2 : attrLookup attrsB constants.Project = some constants.MsBuildtargets) :
    roundTripImportStep s (XmlNode.element constants.Import attrsB [])
      = updateImportedTargetsToProjFile s constants.RoundTripSqlDbNotPresentCondition
          constants.MsBuildtargets (some (XmlNode.element constants.Import attrsB [])) := by
  simp only [roundTripImportStep, getAttrJs_element _ _ _ _ _ hB1, getAttrJs_element _ _ _ _ _ hB2]
  rw [if_pos (And.intro trivial trivial)]
  rw [if_neg (fun hcontra => absurd hcontra.1 (by decide))]

/-- C2: on a project whose document element holds (among arbitrary other
content free of imports) exactly one import with the legacy-present
condition and legacy-targets path and exactly one import with the
legacy-absent condition and generic-build-targets path, the migration
succeeds; the resulting document's imports are exactly the two originals
replaced in place by their round-trip conditions (targets unchanged)
followed by the appended modern-runtime import, whose target is recorded
in `importedTargets`; exactly one package-reference element is added; and
the backup file at the fixed `_backup` sibling path holds the original
file content. -/
theorem c2_round_trip_migration (s : ProjState) (t : String)
    (a attrsA attrsB : List (String × String)) (pre mid post : List XmlNode) (content : String)
    (hdoc : s.doc = XmlNode.element t a
      (pre ++ XmlNode.element constants.Import attrsA []
        :: (mid ++ XmlNode.element constants.Import attrsB [] :: post)))
    (hA1 : attrLookup attrsA constants.Condition = some constants.SqlDbPresentCondition)
    (hA2 : attrLookup attrsA constants.Project = some constants.SqlDbTargets)
    (hB1 : attrLookup attrsB constants.Condition = some constants.SqlDbNotPresentCondition)
    (hB2 : attrLookup attrsB constants.Project = some constants.MsBuildtargets)
    (hpre : elemsByTagL constants.Import pre = [])
    (hmid : elemsByTagL constants.Import mid = [])
    (hpost : elemsByTagL constants.Import post = [])
    (hdisk : diskRead s.disk s.projectFilePath = some content) :
    (updateProjectForRoundTrip s).2 = none
    ∧ childElemsByTag constants.Import (updateProjectForRoundTrip s).1.doc
        = [XmlNode.element constants.Import
             [(constants.Condition, constants.RoundTripSqlDbPresentCondition),
              (constants.Project, constants.SqlDbTargets)] [],
           XmlNode.element constants.Import
             [(constants.Condition, constants.RoundTripSqlDbNotPresentCondition),
              (constants.Project, constants.MsBuildtargets)] [],
           XmlNode.element constants.Import
             [(constants.Condition, constants.NetCoreCondition),
              (constants.Project, constants.NetCoreTargets)] []]
    ∧ (updateProjectForRoundTrip s).1.importedTargets
        = s.importedTargets ++ [constants.NetCoreTargets]
    ∧ countTagN constants.PackageReference (updateProjectForRoundTrip s).1.doc
        = countTagN constants.PackageReference s.doc + 1
    ∧ diskRead (updateProjectForRoundTrip s).1.disk (backupPath s.projectFilePath)
        = some content := by
  -- closed evaluations of the fixed nodes
  have hwpkg : elemsByTagN constants.Import packageReferenceNode = [] := by decide
  have hnewA : elemsByTagN constants.Import (XmlNode.element constants.Import
      [(constants.Condition, constants.RoundTripSqlDbPresentCondition),
       (constants.Project, constants.SqlDbTargets)] [])
      = [XmlNode.element constants.Import
          [(constants.Condition, constants.RoundTripSqlDbPresentCondition),
           (constants.Project, constants.SqlDbTargets)] []] := by decide
  have hnewB : elemsByTagN constants.Import (XmlNode.element constants.Import
      [(constants.Condition, constants.RoundTripSqlDbNotPresentCondition),
       (constants.Project, constants.MsBuildtargets)] [])
      = [XmlNode.element constants.Import
          [(constants.Condition, constants.RoundTripSqlDbNotPresentCondition),
           (constants.Project, constants.MsBuildtargets)] []] := by decide
  have hnet : elemsByTagN constants.Import (XmlNode.element constants.Import
      [(constants.Condition, constants.NetCoreCondition),
       (constants.Project, constants.NetCoreTargets)] [])
      = [XmlNode.element constants.Import
          [(constants.Condition, constants.NetCoreCondition),
           (constants.Project, constants.NetCoreTargets)] []] := by decide
  have himpA : elemsByTagN constants.Import (XmlNode.element constants.Import attrsA [])
      = [XmlNode.element constants.Import attrsA []] := by
    rw [elemsByTagN_childless, if_pos rfl]
  have himpB : elemsByTagN constants.Import (XmlNode.element constants.Import attrsB [])
      = [XmlNode.element constants.Import attrsB []] := by
    rw [elemsByTagN_childless, if_pos rfl]
  -- the run with a successful backup copy
  have hrun : updateProjectForRoundTrip s
      = (updatePackageReferenceInProjFile (updateImportToSupportRoundTrip
          { s with disk := diskWrite s.disk (backupPath s.projectFilePath) content }), none) := by
    unfold updateProjectForRoundTrip
    rw [hdisk]
  -- the import snapshot the scan iterates
  have hsnap : childElemsByTag constants.Import
      ({ s with disk := diskWrite s.disk (backupPath s.projectFilePath) content }
        : ProjState).doc
      = [XmlNode.element constants.Import attrsA [], XmlNode.element constants.Import attrsB []] := by
    show childElemsByTag constants.Import s.doc = _
    rw [hdoc]
    simp [childElemsByTag, childrenOf, elemsByTagL_append, elemsByTagL, hpre, hmid, hpost,
      himpA, himpB]
  -- the scan rewrites the two legacy imports and appends the NetCore one
  have hfold : updateImportToSupportRoundTrip
      { s with disk := diskWrite s.disk (backupPath s.projectFilePath) content }
      = updateImportedTargetsToProjFile
          (roundTripImportStep
            (roundTripImportStep
              { s with disk := diskWrite s.disk (backupPath s.projectFilePath) content }
              (XmlNode.element constants.Import attrsA []))
            (XmlNode.element constants.Import attrsB []))
          constants.NetCoreCondition constants.NetCoreTargets none := by
    unfold updateImportToSupportRoundTrip
    rw [hsnap]
    rfl
  -- step 1: the legacy-present import is replaced in place
  have hstep1 := roundTripImportStep_present
    { s with disk := diskWrite s.disk (backupPath s.projectFilePath) content } attrsA hA1 hA2
  have himpApre : XmlNode.element constants.Import attrsA [] ∉ pre :=
    not_mem_of_elemsByTagL_nil constants.Import pre hpre _ rfl
  have hsAdoc : (roundTripImportStep
      { s with disk := diskWrite s.disk (backupPath s.projectFilePath) content }
      (XmlNode.element constants.Import attrsA [])).doc
      = XmlNode.element t a (pre ++ XmlNode.element constants.Import
          [(constants.Condition, constants.RoundTripSqlDbPresentCondition),
           (constants.Project, constants.SqlDbTargets)] []
          :: (mid ++ XmlNode.element constants.Import attrsB [] :: post)) := by
    rw [hstep1, (uitt_replace _ _ _ _).1]
    show replaceChildRoot _ _ s.doc = _
    rw [hdoc]
    show XmlNode.element t a (replaceFirstChild _ _ _) = _
    rw [replaceFirstChild_append _ _ _ _ himpApre]
  have hsAimp : (roundTripImportStep
      { s with disk := diskWrite s.disk (backupPath s.projectFilePath) content }
      (XmlNode.element constants.Import attrsA [])).importedTargets = s.importedTargets := by
    rw [hstep1, (uitt_replace _ _ _ _).2]
  -- step 2: the legacy-absent import is replaced in place
  have hstep2 := roundTripImportStep_notPresent
    (roundTripImportStep
      { s with disk := diskWrite s.disk (backupPath s.projectFilePath) content }
      (XmlNode.element constants.Import attrsA [])) attrsB hB1 hB2
  have himpBne : XmlNode.element constants.Import attrsB []
      ≠ XmlNode.element constants.Import
          [(constants.Condition, constants.RoundTripSqlDbPresentCondition),
           (constants.Project, constants.SqlDbTargets)] [] := by
    intro he
    have h1 := congrArg (fun n => nodeAttr n constants.Condition) he
    simp only [nodeAttr] at h1
    rw [hB1] at h1
    have h2 : attrLookup
        [(constants.Condition, constants.RoundTripSqlDbPresentCondition),
         (constants.Project, constants.SqlDbTargets)] constants.Condition
        = some constants.RoundTripSqlDbPresentCondition := by
      simp [attrLookup]
    rw [h2] at h1
    injection h1 with h1
    exact absurd h1 (by decide)
  have himpBnotmem : XmlNode.element constants.Import attrsB []
      ∉ pre ++ XmlNode.element constants.Import
          [(constants.Condition, constants.RoundTripSqlDbPresentCondition),
           (constants.Project, constants.SqlDbTargets)] [] :: mid := by
    intro hmem
    rcases List.mem_append.mp hmem with hmem1 | hmem2
    · exact not_mem_of_elemsByTagL_nil constants.Import pre hpre
        (XmlNode.element constants.Import attrsB []) rfl hmem1
    · rcases List.mem_cons.mp hmem2 with he | hmem3
      · exact himpBne he
      · exact not_mem_of_elemsByTagL_nil constants.Import mid hmid
          (XmlNode.element constants.Import attrsB []) rfl hmem3
  have hsBdoc : (roundTripImportStep
      (roundTripImportStep
        { s with disk := diskWrite s.disk (backupPath s.projectFilePath) content }
        (XmlNode.element constants.Import attrsA []))
      (XmlNode.element constants.Import attrsB [])).doc
      = XmlNode.element t a
          ((pre ++ XmlNode.element constants.Import
              [(constants.Condition, constants.RoundTripSqlDbPresentCondition),
               (constants.Project, constants.SqlDbTargets)] [] :: mid)
            ++ XmlNode.element constants.Import
              [(constants.Condition, constants.RoundTripSqlDbNotPresentCondition),
               (constants.Project, constants.MsBuildtargets)] [] :: post) := by
    rw [hstep2, (uitt_replace _ _ _ _).1, hsAdoc]
    show XmlNode.element t a (replaceFirstChild _ _ _) = _
    have hre : pre ++ XmlNode.element constants.Import
        [(constants.Condition, constants.RoundTripSqlDbPresentCondition),
         (constants.Project, constants.SqlDbTargets)] []
        :: (mid ++ XmlNode.element constants.Import attrsB [] :: post)
        = (pre ++ XmlNode.element constants.Import
            [(constants.Condition, constants.RoundTripSqlDbPresentCondition),
             (constants.Project, constants.SqlDbTargets)] [] :: mid)
          ++ XmlNode.element constants.Import attrsB [] :: post := by
      simp
    rw [hre, replaceFirstChild_append _ _ _ _ himpBnotmem]
  have hsBimp : (roundTripImportStep
      (roundTripImportStep
        { s with disk := diskWrite s.disk (backupPath s.projectFilePath) content }
        (XmlNode.element constants.Import attrsA []))
      (XmlNode.element constants.Import attrsB [])).importedTargets = s.importedTargets := by
    rw [hstep2, (uitt_replace _ _ _ _).2, hsAimp]
  -- step 3: the NetCore import is appended and recorded
  have hsCdoc : (updateImportToSupportRoundTrip
      { s with disk := diskWrite s.disk (backupPath s.projectFilePath) content }).doc
      = XmlNode.element t a
          (((pre ++ XmlNode.element constants.Import
              [(constants.Condition, constants.RoundTripSqlDbPresentCondition),
               (constants.Project, constants.SqlDbTargets)] [] :: mid)
            ++ XmlNode.element constants.Import
              [(constants.Condition, constants.RoundTripSqlDbNotPresentCondition),
               (constants.Project, constants.MsBuildtargets)] [] :: post)
            ++ [XmlNode.element constants.Import
              [(constants.Condition, constants.NetCoreCondition),
               (constants.Project, constants.NetCoreTargets)] []]) := by
    rw [hfold, (uitt_append _ _ _).1, hsBdoc]
    rfl
  have hsCimp : (updateImportToSupportRoundTrip
      { s with disk := diskWrite s.disk (backupPath s.projectFilePath) content }).importedTargets
      = s.importedTargets ++ [constants.NetCoreTargets] := by
    rw [hfold, (uitt_append _ _ _).2, hsBimp]
  -- the import contents of the children list entering the package step
  have hbaseImp : elemsByTagL constants.Import
      (((pre ++ XmlNode.element constants.Import
          [(constants.Condition, constants.RoundTripSqlDbPresentCondition),
           (constants.Project, constants.SqlDbTargets)] [] :: mid)
        ++ XmlNode.element constants.Import
          [(constants.Condition, constants.RoundTripSqlDbNotPresentCondition),
           (constants.Project, constants.MsBuildtargets)] [] :: post)
        ++ [XmlNode.element constants.Import
          [(constants.Condition, constants.NetCoreCondition),
           (constants.Project, constants.NetCoreTargets)] []])
      = [XmlNode.element constants.Import
           [(constants.Condition, constants.RoundTripSqlDbPresentCondition),
            (constants.Project, constants.SqlDbTargets)] [],
         XmlNode.element constants.Import
           [(constants.Condition, constants.RoundTripSqlDbNotPresentCondition),
            (constants.Project, constants.MsBuildtargets)] [],
         XmlNode.element constants.Import
           [(constants.Condition, constants.NetCoreCondition),
            (constants.Project, constants.NetCoreTargets)] []] := by
    simp only [elemsByTagL_append, elemsByTagL, hpre, hmid, hpost, hnewA, hnewB, hnet]
    simp
  -- no node the insertion predicate accepts is an import element
  have hpImp : ∀ x, groupHasChildOfTag constants.PackageReference x = true →
      tagOf x ≠ some constants.Import := by
    intro x hx
    cases x with
    | text str => simp [groupHasChildOfTag] at hx
    | element tx ax cx =>
      simp only [groupHasChildOfTag, Bool.and_eq_true, decide_eq_true_eq] at hx
      intro htag
      simp only [tagOf, Option.some.injEq] at htag
      rw [htag] at hx
      exact absurd hx.1 (by decide)
  -- package-reference contents of the fixed nodes
  have hpkgPR : elemsByTagN constants.PackageReference packageReferenceNode
      = [packageReferenceNode] := by decide
  have hnewAPR : elemsByTagN constants.PackageReference (XmlNode.element constants.Import
      [(constants.Condition, constants.RoundTripSqlDbPresentCondition),
       (constants.Project, constants.SqlDbTargets)] []) = [] := by decide
  have hnewBPR : elemsByTagN constants.PackageReference (XmlNode.element constants.Import
      [(constants.Condition, constants.RoundTripSqlDbNotPresentCondition),
       (constants.Project, constants.MsBuildtargets)] []) = [] := by decide
  have hnetPR : elemsByTagN constants.PackageReference (XmlNode.element constants.Import
      [(constants.Condition, constants.NetCoreCondition),
       (constants.Project, constants.NetCoreTargets)] []) = [] := by decide
  have himpAPR : elemsByTagN constants.PackageReference
      (XmlNode.element constants.Import attrsA []) = [] := by
    rw [elemsByTagN_childless, if_neg (by decide)]
  have himpBPR : elemsByTagN constants.PackageReference
      (XmlNode.element constants.Import attrsB []) = [] := by
    rw [elemsByTagN_childless, if_neg (by decide)]
  have hgrpImp : elemsByTagN constants.Import
      (XmlNode.element constants.ItemGroup [] [packageReferenceNode]) = [] := by decide
  have hgrpPR : elemsByTagN constants.PackageReference
      (XmlNode.element constants.ItemGroup [] [packageReferenceNode])
      = [packageReferenceNode] := by decide
  -- package-reference length of the base children lists
  have hPR0 : (elemsByTagL constants.PackageReference
      (pre ++ XmlNode.element constants.Import attrsA []
        :: (mid ++ XmlNode.element constants.Import attrsB [] :: post))).length
      = (elemsByTagL constants.PackageReference pre).length
        + (elemsByTagL constants.PackageReference mid).length
        + (elemsByTagL constants.PackageReference post).length := by
    simp only [elemsByTagL_append, elemsByTagL, himpAPR, himpBPR]
    simp
    omega
  have hPRCS : (elemsByTagL constants.PackageReference
      (((pre ++ XmlNode.element constants.Import
          [(constants.Condition, constants.RoundTripSqlDbPresentCondition),
           (constants.Project, constants.SqlDbTargets)] [] :: mid)
        ++ XmlNode.element constants.Import
          [(constants.Condition, constants.RoundTripSqlDbNotPresentCondition),
           (constants.Project, constants.MsBuildtargets)] [] :: post)
        ++ [XmlNode.element constants.Import
          [(constants.Condition, constants.NetCoreCondition),
           (constants.Project, constants.NetCoreTargets)] []])).length
      = (elemsByTagL constants.PackageReference pre).length
        + (elemsByTagL constants.PackageReference mid).length
        + (elemsByTagL constants.PackageReference post).length := by
    simp only [elemsByTagL_append, elemsByTagL, hnewAPR, hnewBPR, hnetPR]
    simp
    omega
  -- every import element entering the package step is childless
  have hchildless : ∀ x ∈ elemsByTagL constants.Import
      (((pre ++ XmlNode.element constants.Import
          [(constants.Condition, constants.RoundTripSqlDbPresentCondition),
           (constants.Project, constants.SqlDbTargets)] [] :: mid)
        ++ XmlNode.element constants.Import
          [(constants.Condition, constants.RoundTripSqlDbNotPresentCondition),
           (constants.Project, constants.MsBuildtargets)] [] :: post)
        ++ [XmlNode.element constants.Import
          [(constants.Condition, constants.NetCoreCondition),
           (constants.Project, constants.NetCoreTargets)] []]),
      childrenOf x = [] := by
    rw [hbaseImp]
    intro x hx
    rcases List.mem_cons.mp hx with rfl | hx2
    · rfl
    rcases List.mem_cons.mp hx2 with rfl | hx3
    · rfl
    rcases List.mem_cons.mp hx3 with rfl | hx4
    · rfl
    simp at hx4
  -- the package step: case on whether an existing group receives the node
  refine ⟨by rw [hrun], ?_, ?_, ?_, ?_⟩
  · -- final import list
    rw [hrun]
    show childElemsByTag constants.Import
      (findOrCreateItemGroupAppend (some constants.PackageReference) packageReferenceNode
        (updateImportToSupportRoundTrip _).doc) = _
    rw [hsCdoc]
    rw [findOrCreateItemGroupAppend]
    cases happ : appendFirstL (groupHasChildOfTag constants.PackageReference)
        packageReferenceNode
        (((pre ++ XmlNode.element constants.Import
            [(constants.Condition, constants.RoundTripSqlDbPresentCondition),
             (constants.Project, constants.SqlDbTargets)] [] :: mid)
          ++ XmlNode.element constants.Import
            [(constants.Condition, constants.RoundTripSqlDbNotPresentCondition),
             (constants.Project, constants.MsBuildtargets)] [] :: post)
          ++ [XmlNode.element constants.Import
            [(constants.Condition, constants.NetCoreCondition),
             (constants.Project, constants.NetCoreTargets)] []]) with
    | some cs' =>
      show elemsByTagL constants.Import cs' = _
      rw [appendFirstL_elems_pres _ _ _ hwpkg hpImp _ _ happ hchildless, hbaseImp]
    | none =>
      show elemsByTagL constants.Import (_ ++ [XmlNode.element constants.ItemGroup []
        [packageReferenceNode]]) = _
      rw [elemsByTagL_append, hbaseImp]
      simp [elemsByTagL, hgrpImp]
  · -- importedTargets
    rw [hrun]
    show (updateImportToSupportRoundTrip _).importedTargets = _
    exact hsCimp
  · -- exactly one new package-reference element
    rw [hrun]
    show countTagN constants.PackageReference
      (findOrCreateItemGroupAppend (some constants.PackageReference) packageReferenceNode
        (updateImportToSupportRoundTrip _).doc) = _
    rw [hsCdoc, hdoc]
    rw [findOrCreateItemGroupAppend]
    unfold countTagN
    cases happ : appendFirstL (groupHasChildOfTag constants.PackageReference)
        packageReferenceNode
        (((pre ++ XmlNode.element constants.Import
            [(constants.Condition, constants.RoundTripSqlDbPresentCondition),
             (constants.Project, constants.SqlDbTargets)] [] :: mid)
          ++ XmlNode.element constants.Import
            [(constants.Condition, constants.RoundTripSqlDbNotPresentCondition),
             (constants.Project, constants.MsBuildtargets)] [] :: post)
          ++ [XmlNode.element constants.Import
            [(constants.Condition, constants.NetCoreCondition),
             (constants.Project, constants.NetCoreTargets)] []]) with
    | some cs' =>
      have hlen := appendFirstL_count (groupHasChildOfTag constants.PackageReference)
        packageReferenceNode constants.PackageReference _ _ happ
      rw [hPRCS, hpkgPR] at hlen
      show (elemsByTagN constants.PackageReference (XmlNode.element t a cs')).length = _
      rw [elemsByTagN]
      rw [show (elemsByTagN constants.PackageReference (XmlNode.element t a
        (pre ++ XmlNode.element constants.Import attrsA []
          :: (mid ++ XmlNode.element constants.Import attrsB [] :: post))))
        = (if t = constants.PackageReference
            then [XmlNode.element t a (pre ++ XmlNode.element constants.Import attrsA []
              :: (mid ++ XmlNode.element constants.Import attrsB [] :: post))] else [])
          ++ elemsByTagL constants.PackageReference
            (pre ++ XmlNode.element constants.Import attrsA []
              :: (mid ++ XmlNode.element constants.Import attrsB [] :: post)) from rfl]
      rw [List.length_append, List.length_append, hlen, hPR0]
      by_cases htg : t = constants.PackageReference <;> simp [htg] <;> omega
    | none =>
      show (elemsByTagN constants.PackageReference (XmlNode.element t a
        (_ ++ [XmlNode.element constants.ItemGroup [] [packageReferenceNode]]))).length = _
      rw [elemsByTagN]
      rw [show (elemsByTagN constants.PackageReference (XmlNode.element t a
        (pre ++ XmlNode.element constants.Import attrsA []
          :: (mid ++ XmlNode.element constants.Import attrsB [] :: post))))
        = (if t = constants.PackageReference
            then [XmlNode.element t a (pre ++ XmlNode.element constants.Import attrsA []
              :: (mid ++ XmlNode.element constants.Import attrsB [] :: post))] else [])
          ++ elemsByTagL constants.PackageReference
            (pre ++ XmlNode.element constants.Import attrsA []
              :: (mid ++ XmlNode.element constants.Import attrsB [] :: post)) from rfl]
      rw [elemsByTagL_append]
      rw [show elemsByTagL constants.PackageReference
        [XmlNode.element constants.ItemGroup [] [packageReferenceNode]]
        = elemsByTagN constants.PackageReference
            (XmlNode.element constants.ItemGroup [] [packageReferenceNode]) ++ [] from rfl]
      rw [hgrpPR]
      simp only [List.length_append, hPRCS, hPR0]
      by_cases htg : t = constants.PackageReference <;> simp [htg] <;> omega
  · -- the backup holds the original content
    rw [hrun]
    have hb1 : diskRead (diskWrite s.disk (backupPath s.projectFilePath) content)
        (backupPath s.projectFilePath) = some content := by
      rw [diskRead_diskWrite, if_pos rfl]
    have hkne : backupPath s.projectFilePath
        ≠ ({ s with disk := diskWrite s.disk (backupPath s.projectFilePath) content }
            : ProjState).projectFilePath :=
      backupPath_ne s.projectFilePath
    have h2 := updateImportToSupportRoundTrip_preserves
      { s with disk := diskWrite s.disk (backupPath s.projectFilePath) content }
      (backupPath s.projectFilePath) hkne
    have hkne2 : backupPath s.projectFilePath
        ≠ (updateImportToSupportRoundTrip
            { s with disk := diskWrite s.disk (backupPath s.projectFilePath) content }
            ).projectFilePath := by
      rw [h2.1]
      exact hkne
    have h3 := updatePackageReferenceInProjFile_preserves
      (updateImportToSupportRoundTrip
        { s with disk := diskWrite s.disk (backupPath s.projectFilePath) content })
      (backupPath s.projectFilePath) hkne2
    show diskRead (updatePackageReferenceInProjFile _).disk _ = _
    rw [h3.2, h2.2]
    exact hb1

/-- C2, witnessed on the two-legacy-imports fixture. -/
theorem c2_round_trip_migration_witness :
    (updateProjectForRoundTrip legacyImportsState).2 = none
    ∧ childElemsByTag constants.Import (updateProjectForRoundTrip legacyImportsState).1.doc
        = [XmlNode.element constants.Import
             [(constants.Condition, constants.RoundTripSqlDbPresentCondition),
              (constants.Project, constants.SqlDbTargets)] [],
           XmlNode.element constants.Import
             [(constants.Condition, constants.RoundTripSqlDbNotPresentCondition),
              (constants.Project, constants.MsBuildtargets)] [],
           XmlNode.element constants.Import
             [(constants.Condition, constants.NetCoreCondition),
              (constants.Project, constants.NetCoreTargets)] []]
    ∧ (updateProjectForRoundTrip legacyImportsState).1.importedTargets
        = legacyImportsState.importedTargets ++ [constants.NetCoreTargets]
    ∧ countTagN constants.PackageReference (updateProjectForRoundTrip legacyImportsState).1.doc
        = countTagN constants.PackageReference legacyImportsState.doc + 1
    ∧ diskRead (updateProjectForRoundTrip legacyImportsState).1.disk
        (backupPath legacyImportsState.projectFilePath) = some "original-bytes" :=
  c2_round_trip_migration legacyImportsState constants.Project []
    [(constants.Condition, constants.SqlDbPresentCondition),
     (constants.Project, constants.SqlDbTargets)]
    [(constants.Condition, constants.SqlDbNotPresentCondition),
     (constants.Project, constants.MsBuildtargets)]
    [] [] [] "original-bytes" (by decide) (by decide) (by decide) (by decide) (by decide)
    rfl rfl rfl (by decide)

/-! ### Claim C5 (confirmed: load / serialize / re-parse / load round trip)

Stage A: the stack-machine tree builder inverts the token flattening,
for every tree. -/

mutual

theorem runTokens_node (n : XmlNode) : ∀ (ts : List Token) (fr : List Frame) (acc : List XmlNode),
    (∀ f st, fr = f :: st →
      runTokens (nodeTokens n ++ ts) fr acc
        = runTokens ts ({ f with children := f.children ++ [n] } :: st) acc)
    ∧ (fr = [] → runTokens (nodeTokens n ++ ts) fr acc = runTokens ts [] (acc ++ [n])) := by
  cases n with
  | text s =>
    intro ts fr acc
    constructor
    · rintro f st rfl
      simp [nodeTokens, runTokens]
    · rintro rfl
      simp [nodeTokens, runTokens]
  | element t a cs =>
    intro ts fr acc
    constructor
    · rintro f st rfl
      have hl := runTokens_list cs (List.cons (Frame.mk t a []) (f :: st)) (Token.closeTag t :: ts) acc
      simp only [nodeTokens, List.cons_append, List.append_assoc, List.nil_append,
        List.singleton_append]
      rw [runTokens]
      rw [hl _ _ rfl]
      simp [runTokens]
    · rintro rfl
      have hl := runTokens_list cs (List.cons (Frame.mk t a []) []) (Token.closeTag t :: ts) acc
      simp only [nodeTokens, List.cons_append, List.append_assoc, List.nil_append,
        List.singleton_append]
      rw [runTokens]
      rw [hl _ _ rfl]
      simp [runTokens]

theorem runTokens_list (ns : List XmlNode) : ∀ (fr : List Frame) (ts : List Token) (acc : List XmlNode),
    (∀ f st, fr = f :: st →
      runTokens (listTokens ns ++ ts) fr acc
        = runTokens ts ({ f with children := f.children ++ ns } :: st) acc) := by
  cases ns with
  | nil =>
    rintro fr ts acc f st rfl
    simp [listTokens]
  | cons n ns' =>
    rintro fr ts acc f st rfl
    have h1 := (runTokens_node n (listTokens ns' ++ ts) (f :: st) acc).1 f st rfl
    simp only [listTokens, List.append_assoc]
    rw [h1]
    have h2 := runTokens_list ns' ({ f with children := f.children ++ [n] } :: st) ts acc
    rw [h2 _ _ rfl]
    simp

end

theorem runTokens_roundtrip (n : XmlNode) : runTokens (nodeTokens n) [] [] = some [n] := by
  have h := (runTokens_node n [] [] []).2 rfl
  simpa [runTokens] using h

/-! Stage B: the character-level lexer inverts token rendering, for
well-formed tokens. -/

theorem takeWhile_append_not (p : Char → Bool) (l r : List Char)
    (hl : ∀ c ∈ l, p c = true) (hr : ∀ c, r.head? = some c → p c = false) :
    (l ++ r).takeWhile p = l := by
  induction l with
  | nil =>
    cases r with
    | nil => rfl
    | cons c cs => simp [List.takeWhile_cons, hr c rfl]
  | cons c cs ih =>
    simp only [List.cons_append, List.takeWhile_cons, hl c (List.mem_cons_self c cs)]
    rw [ih (fun x hx => hl x (List.mem_cons_of_mem c hx))]
    simp

theorem dropWhile_append_not (p : Char → Bool) (l r : List Char)
    (hl : ∀ c ∈ l, p c = true) (hr : ∀ c, r.head? = some c → p c = false) :
    (l ++ r).dropWhile p = r := by
  induction l with
  | nil =>
    cases r with
    | nil => rfl
    | cons c cs => simp [List.dropWhile_cons, hr c rfl]
  | cons c cs ih =>
    simp only [List.cons_append, List.dropWhile_cons, hl c (List.mem_cons_self c cs)]
    simp only [if_true]
    exact ih (fun x hx => hl x (List.mem_cons_of_mem c hx))

theorem renderAttrs_len_ge (a : List (String × String)) :
    a.length ≤ (renderAttrsChars a).length := by
  induction a with
  | nil => simp [renderAttrsChars]
  | cons hd tl ih =>
    obtain ⟨nm, v⟩ := hd
    simp only [renderAttrsChars, List.length_cons, List.length_append]
    omega

theorem lexAttrs_render (a : List (String × String)) :
    ∀ (rest : List Char) (fuel : Nat), a.all attrOk = true → a.length < fuel →
      lexAttrs fuel (renderAttrsChars a ++ '>' :: rest) = some (a, rest) := by
  induction a with
  | nil =>
    intro rest fuel _ _
    show lexAttrs fuel ('>' :: rest) = some ([], rest)
    cases fuel with
    | zero => rfl
    | succ n => rfl
  | cons hd tl ih =>
    intro rest fuel hwf hfuel
    obtain ⟨nm, v⟩ := hd
    have hwf1 : attrOk (nm, v) = true ∧ tl.all attrOk = true := by
      simpa using hwf
    have hnm : (!nm.isEmpty && nm.data.all isNameChar) = true := by
      have := hwf1.1
      simp only [attrOk, Bool.and_eq_true] at this
      simpa [nameOk] using this.1
    have hnmall : ∀ c ∈ nm.data, isNameChar c = true := by
      intro c hc
      have h2 := (Bool.and_eq_true _ _).mp hnm
      exact List.all_eq_true.mp h2.2 c hc
    have hvq : ∀ c ∈ v.data, (c ≠ '"' : Bool) = true := by
      have := hwf1.1
      simp only [attrOk, Bool.and_eq_true] at this
      intro c hc
      have h3 := List.all_eq_true.mp this.2 c hc
      simpa using h3
    cases fuel with
    | zero => omega
    | succ fuel' =>
      show lexAttrs (fuel' + 1)
        (' ' :: (nm.data ++ '=' :: '"' :: (v.data ++ '"' :: renderAttrsChars tl)) ++ '>' :: rest)
        = some ((nm, v) :: tl, rest)
      have hX : (' ' :: (nm.data ++ '=' :: '"' :: (v.data ++ '"' :: renderAttrsChars tl)))
          ++ '>' :: rest
          = ' ' :: (nm.data ++ '=' :: '"' :: (v.data ++ '"' :: (renderAttrsChars tl ++ '>' :: rest))) := by
        simp
      rw [hX]
      rw [show lexAttrs (fuel' + 1)
        (' ' :: (nm.data ++ '=' :: '"' :: (v.data ++ '"' :: (renderAttrsChars tl ++ '>' :: rest))))
        = (if (' ' : Char) = '>' then some ([], nm.data ++ '=' :: '"' :: (v.data ++ '"' :: (renderAttrsChars tl ++ '>' :: rest)))
          else if (' ' : Char) = ' ' then
            (let cs := nm.data ++ '=' :: '"' :: (v.data ++ '"' :: (renderAttrsChars tl ++ '>' :: rest));
              if cs.takeWhile isNameChar = [] then none
              else
                match cs.dropWhile isNameChar with
                | '=' :: '"' :: cs1 =>
                  match cs1.dropWhile (fun x => x ≠ '"') with
                  | '"' :: cs2 =>
                    match lexAttrs fuel' cs2 with
                    | some (as, r) => some ((String.mk (cs.takeWhile isNameChar), String.mk (cs1.takeWhile (fun x => x ≠ '"'))) :: as, r)
                    | none => none
                  | _ => none
                | _ => none)
          else none) from rfl]
      rw [if_neg (by decide), if_pos rfl]
      have htake : (nm.data ++ '=' :: '"' :: (v.data ++ '"' :: (renderAttrsChars tl ++ '>' :: rest))).takeWhile isNameChar = nm.data := by
        apply takeWhile_append_not isNameChar nm.data _ hnmall
        intro c hc
        injection hc with hc
        rw [← hc]
        decide
      have hdrop : (nm.data ++ '=' :: '"' :: (v.data ++ '"' :: (renderAttrsChars tl ++ '>' :: rest))).dropWhile isNameChar = '=' :: '"' :: (v.data ++ '"' :: (renderAttrsChars tl ++ '>' :: rest)) := by
        apply dropWhile_append_not isNameChar nm.data _ hnmall
        intro c hc
        injection hc with hc
        rw [← hc]
        decide
      simp only [htake, hdrop]
      have hnonempty : nm.data ≠ [] := by
        intro he
        have hne : nm = "" := by
          cases nm with
          | mk d => exact congrArg String.mk he
        rw [hne] at hnm
        exact absurd hnm (by decide)
      rw [if_neg hnonempty]
      have htakev : (v.data ++ '"' :: (renderAttrsChars tl ++ '>' :: rest)).takeWhile (fun x => x ≠ '"') = v.data := by
        apply takeWhile_append_not _ v.data _ hvq
        intro c hc
        injection hc with hc
        rw [← hc]
        decide
      have hdropv : (v.data ++ '"' :: (renderAttrsChars tl ++ '>' :: rest)).dropWhile (fun x => x ≠ '"') = '"' :: (renderAttrsChars tl ++ '>' :: rest) := by
        apply dropWhile_append_not _ v.data _ hvq
        intro c hc
        injection hc with hc
        rw [← hc]
        decide
      simp only [htakev, hdropv]
      rw [ih rest fuel' hwf1.2 (by simpa using Nat.lt_of_succ_lt_succ hfuel)]

theorem renderToken_len_pos (tk : Token) (h : wfToken tk = true) :
    1 ≤ (renderToken tk).length := by
  cases tk with
  | openTag t a => simp [renderToken]
  | closeTag t => simp [renderToken]
  | textTok s =>
    have hso : textOk s = true := h
    simp only [textOk, Bool.and_eq_true] at hso
    have hne : s.data ≠ [] := by
      intro he
      have h2 : s = "" := by
        cases s with
        | mk d => exact congrArg String.mk he
      rw [h2] at hso
      exact absurd hso.1 (by decide)
    have hlp : s.data.length ≠ 0 := fun h0 => hne (List.length_eq_zero.mp h0)
    simp only [renderToken]
    omega

theorem renderTokens_head_lt (rest : List Token)
    (h : ∀ s, rest.head? ≠ some (Token.textTok s)) :
    ∀ c, (renderTokens rest).head? = some c → (decide (c ≠ '<')) = false := by
  intro c hc
  cases rest with
  | nil => simp [renderTokens] at hc
  | cons tk rest2 =>
    cases tk with
    | textTok s => exact absurd rfl (h s)
    | openTag t a =>
      simp only [renderTokens, renderToken, List.cons_append, List.head?_cons,
        Option.some.injEq] at hc
      rw [← hc]
      decide
    | closeTag t =>
      simp only [renderTokens, renderToken, List.cons_append, List.head?_cons,
        Option.some.injEq] at hc
      rw [← hc]
      decide

theorem nameChar_not_slash (c : Char) (h : isNameChar c = true) : ¬c = '/' := by
  intro he
  rw [he] at h
  exact absurd h (by decide)

theorem name_data_nonempty (t : String) (h : nameOk t = true) : t.data ≠ [] := by
  intro he
  have h2 : t = "" := by
    cases t with
    | mk d => exact congrArg String.mk he
  rw [h2] at h
  exact absurd h (by decide)

theorem lexTokens_text_eq (fuel : Nat) (c : Char) (cs : List Char) (hc : ¬c = '<') :
    lexTokens (fuel + 1) (c :: cs)
      = (lexTokens fuel ((c :: cs).dropWhile (fun x => decide (x ≠ '<')))).map
          (fun l => Token.textTok (String.mk ((c :: cs).takeWhile (fun x => decide (x ≠ '<')))) :: l) := by
  simp [lexTokens, hc]

theorem lexTokens_close_eq (fuel : Nat) (cs1 : List Char) :
    lexTokens (fuel + 1) ('<' :: '/' :: cs1)
      = (match cs1.dropWhile isNameChar with
        | '>' :: cs2 =>
          (lexTokens fuel cs2).map
            (fun l => Token.closeTag (String.mk (cs1.takeWhile isNameChar)) :: l)
        | _ => none) := by
  simp [lexTokens]

theorem lexTokens_open_eq (fuel : Nat) (c0 : Char) (cs' : List Char) (h1 : ¬c0 = '/')
    (h2 : ¬c0 = '<') :
    lexTokens (fuel + 1) ('<' :: c0 :: cs')
      = (if (c0 :: cs').takeWhile isNameChar = [] then none
         else
           match lexAttrs fuel ((c0 :: cs').dropWhile isNameChar) with
           | some (attrs, cs2) =>
             (lexTokens fuel cs2).map
               (fun l => Token.openTag (String.mk ((c0 :: cs').takeWhile isNameChar)) attrs :: l)
           | none => none) := by
  simp [lexTokens, h1]

theorem lexTokens_render (ts : List Token) :
    ∀ fuel : Nat, ts.all wfToken = true →
      List.Chain' (fun x y => isTextTok x = false ∨ isTextTok y = false) ts →
      (renderTokens ts).length < fuel →
      lexTokens fuel (renderTokens ts) = some ts := by
  induction ts with
  | nil =>
    intro fuel _ _ _
    show lexTokens fuel [] = some []
    cases fuel with
    | zero => rfl
    | succ n => rfl
  | cons tk rest ih =>
    intro fuel hwf hchain hfuel
    have hwf1 : wfToken tk = true ∧ rest.all wfToken = true := by simpa using hwf
    have hchain2 : List.Chain' (fun x y => isTextTok x = false ∨ isTextTok y = false) rest :=
      hchain.tail
    have hlen : (renderTokens (tk :: rest)).length
        = (renderToken tk).length + (renderTokens rest).length := by
      simp [renderTokens]
    cases fuel with
    | zero => omega
    | succ fuel' =>
      have hrest_lt : (renderTokens rest).length < fuel' := by
        have hpos := renderToken_len_pos tk hwf1.1
        omega
      cases tk with
      | textTok str =>
        have hso : textOk str = true := hwf1.1
        have hsne : str.data ≠ [] := by
          intro he
          have h2 : str = "" := by
            cases str with
            | mk d => exact congrArg String.mk he
          rw [h2] at hso
          exact absurd hso (by decide)
        have hsall : ∀ c ∈ str.data, (decide (c ≠ '<')) = true := by
          simp only [textOk, Bool.and_eq_true] at hso
          intro c hc
          have h3 := List.all_eq_true.mp hso.2 c hc
          simpa using h3
        have hheadr : ∀ c, (renderTokens rest).head? = some c → (decide (c ≠ '<')) = false := by
          apply renderTokens_head_lt
          intro s2 hhd
          cases rest with
          | nil => simp at hhd
          | cons tk2 rest2 =>
            simp only [List.head?_cons, Option.some.injEq] at hhd
            have hrel := List.chain'_cons.mp hchain
            rcases hrel.1 with h4 | h4
            · exact absurd h4 (by simp [isTextTok])
            · rw [hhd] at h4
              exact absurd h4 (by simp [isTextTok])
        have htake : (str.data ++ renderTokens rest).takeWhile (fun x => decide (x ≠ '<'))
            = str.data := takeWhile_append_not _ _ _ hsall hheadr
        have hdrop : (str.data ++ renderTokens rest).dropWhile (fun x => decide (x ≠ '<'))
            = renderTokens rest := dropWhile_append_not _ _ _ hsall hheadr
        show lexTokens (fuel' + 1) (str.data ++ renderTokens rest)
          = some (Token.textTok str :: rest)
        cases hsd : str.data with
        | nil => exact absurd hsd hsne
        | cons c cs0 =>
          have hclt : ¬c = '<' := by
            have h5 := hsall c (by rw [hsd]; exact List.mem_cons_self c cs0)
            simpa using h5
          rw [hsd] at htake hdrop
          show lexTokens (fuel' + 1) ((c :: cs0) ++ renderTokens rest)
            = some (Token.textTok str :: rest)
          rw [show (c :: cs0) ++ renderTokens rest = c :: (cs0 ++ renderTokens rest)
            from rfl]
          rw [lexTokens_text_eq fuel' c (cs0 ++ renderTokens rest) hclt]
          rw [show c :: (cs0 ++ renderTokens rest) = (c :: cs0) ++ renderTokens rest
            from rfl]
          rw [htake, hdrop]
          rw [ih fuel' hwf1.2 hchain2 hrest_lt]
          rw [← hsd, stringMk_data]
          rfl
      | closeTag t =>
        have hnm : nameOk t = true := hwf1.1
        have hnmall : ∀ c ∈ t.data, isNameChar c = true := by
          simp only [nameOk, Bool.and_eq_true] at hnm
          exact List.all_eq_true.mp hnm.2
        have htake : (t.data ++ '>' :: renderTokens rest).takeWhile isNameChar = t.data := by
          apply takeWhile_append_not _ _ _ hnmall
          intro c hc
          injection hc with hc
          rw [← hc]
          decide
        have hdrop : (t.data ++ '>' :: renderTokens rest).dropWhile isNameChar
            = '>' :: renderTokens rest := by
          apply dropWhile_append_not _ _ _ hnmall
          intro c hc
          injection hc with hc
          rw [← hc]
          decide
        show lexTokens (fuel' + 1)
          (('<' :: '/' :: (t.data ++ ['>'])) ++ renderTokens rest)
          = some (Token.closeTag t :: rest)
        rw [show ('<' :: '/' :: (t.data ++ ['>'])) ++ renderTokens rest
          = '<' :: '/' :: (t.data ++ '>' :: renderTokens rest) from by simp]
        rw [lexTokens_close_eq fuel' (t.data ++ '>' :: renderTokens rest)]
        rw [hdrop, htake]
        show (lexTokens fuel' (renderTokens rest)).map
          (fun l => Token.closeTag (String.mk t.data) :: l) = some (Token.closeTag t :: rest)
        rw [ih fuel' hwf1.2 hchain2 hrest_lt, stringMk_data]
        rfl
      | openTag t a =>
        have hta : nameOk t = true ∧ a.all attrOk = true := by
          have h6 : wfToken (Token.openTag t a) = true := hwf1.1
          simpa [wfToken] using h6
        have hnmall : ∀ c ∈ t.data, isNameChar c = true := by
          have h7 := hta.1
          simp only [nameOk, Bool.and_eq_true] at h7
          exact List.all_eq_true.mp h7.2
        have htne : t.data ≠ [] := name_data_nonempty t hta.1
        have hheadY : ∀ c, (renderAttrsChars a ++ '>' :: renderTokens rest).head? = some c →
            isNameChar c = false := by
          intro c hc
          cases a with
          | nil =>
            simp only [renderAttrsChars, List.nil_append, List.head?_cons,
              Option.some.injEq] at hc
            rw [← hc]
            decide
          | cons hd tl =>
            obtain ⟨nm2, v2⟩ := hd
            simp only [renderAttrsChars, List.cons_append, List.head?_cons,
              Option.some.injEq] at hc
            rw [← hc]
            decide
        have htake : (t.data ++ (renderAttrsChars a ++ '>' :: renderTokens rest)).takeWhile
            isNameChar = t.data := takeWhile_append_not _ _ _ hnmall hheadY
        have hdrop : (t.data ++ (renderAttrsChars a ++ '>' :: renderTokens rest)).dropWhile
            isNameChar = renderAttrsChars a ++ '>' :: renderTokens rest :=
          dropWhile_append_not _ _ _ hnmall hheadY
        have halen : a.length < fuel' := by
          have h8 := renderAttrs_len_ge a
          have h9 : (renderTokens (Token.openTag t a :: rest)).length
              = 1 + (t.data.length + ((renderAttrsChars a).length + (1
                + (renderTokens rest).length))) := by
            simp [renderTokens, renderToken]
            omega
          omega
        show lexTokens (fuel' + 1)
          (('<' :: (t.data ++ renderAttrsChars a ++ ['>'])) ++ renderTokens rest)
          = some (Token.openTag t a :: rest)
        rw [show ('<' :: (t.data ++ renderAttrsChars a ++ ['>'])) ++ renderTokens rest
          = '<' :: (t.data ++ (renderAttrsChars a ++ '>' :: renderTokens rest)) from by simp]
        cases htd : t.data with
        | nil => exact absurd htd htne
        | cons c0 t0 =>
          have hc0 : isNameChar c0 = true :=
            hnmall c0 (by rw [htd]; exact List.mem_cons_self c0 t0)
          have hc0slash : ¬c0 = '/' := nameChar_not_slash c0 hc0
          have hc0lt : ¬c0 = '<' := by
            intro he
            rw [he] at hc0
            exact absurd hc0 (by decide)
          rw [htd] at htake hdrop
          rw [show (c0 :: t0) ++ (renderAttrsChars a ++ '>' :: renderTokens rest)
            = c0 :: (t0 ++ (renderAttrsChars a ++ '>' :: renderTokens rest)) from rfl]
          rw [lexTokens_open_eq fuel' c0 (t0 ++ (renderAttrsChars a ++ '>' :: renderTokens rest))
            hc0slash hc0lt]
          rw [show c0 :: (t0 ++ (renderAttrsChars a ++ '>' :: renderTokens rest))
            = (c0 :: t0) ++ (renderAttrsChars a ++ '>' :: renderTokens rest) from rfl]
          rw [htake, hdrop]
          rw [if_neg (by rw [← htd]; exact htne)]
          rw [lexAttrs_render a (renderTokens rest) fuel' hta.2 halen]
          show (lexTokens fuel' (renderTokens rest)).map
            (fun l => Token.openTag (String.mk (c0 :: t0)) a :: l)
            = some (Token.openTag t a :: rest)
          rw [ih fuel' hwf1.2 hchain2 hrest_lt, ← htd, stringMk_data]
          rfl
theorem nodeTokens_ne_nil (n : XmlNode) : nodeTokens n ≠ [] := by
  cases n with
  | text s => simp [nodeTokens]
  | element t a cs => simp [nodeTokens]

theorem nodeTokens_head_text (n : XmlNode) :
    ∀ tk, (nodeTokens n).head? = some tk → isTextTok tk = true → ∃ s, n = XmlNode.text s := by
  intro tk htk htext
  cases n with
  | text s => exact ⟨s, rfl⟩
  | element t a cs =>
    simp only [nodeTokens, List.head?_cons, Option.some.injEq] at htk
    rw [← htk] at htext
    exact absurd htext (by simp [isTextTok])

theorem nodeTokens_last_text (n : XmlNode) :
    ∀ tk, (nodeTokens n).getLast? = some tk → isTextTok tk = true → ∃ s, n = XmlNode.text s := by
  intro tk htk htext
  cases n with
  | text s => exact ⟨s, rfl⟩
  | element t a cs =>
    rw [show nodeTokens (XmlNode.element t a cs)
      = (Token.openTag t a :: listTokens cs) ++ [Token.closeTag t] from by
        simp [nodeTokens]] at htk
    rw [List.getLast?_concat] at htk
    injection htk with htk
    rw [← htk] at htext
    exact absurd htext (by simp [isTextTok])

theorem listTokens_head_text (ns : List XmlNode) :
    ∀ tk, (listTokens ns).head? = some tk → isTextTok tk = true →
      ∃ s ns', ns = XmlNode.text s :: ns' := by
  intro tk htk htext
  cases ns with
  | nil => simp [listTokens] at htk
  | cons m ns' =>
    rw [show listTokens (m :: ns') = nodeTokens m ++ listTokens ns' from rfl] at htk
    rw [List.head?_append_of_ne_nil _ (nodeTokens_ne_nil m)] at htk
    obtain ⟨s, hs⟩ := nodeTokens_head_text m tk htk htext
    exact ⟨s, ns', by rw [hs]⟩

theorem noAdjacentTexts_cons (n : XmlNode) (ns : List XmlNode)
    (h : noAdjacentTexts (n :: ns) = true) :
    noAdjacentTexts ns = true
    ∧ (∀ s s2 ns', n = XmlNode.text s → ns = XmlNode.text s2 :: ns' → False) := by
  constructor
  · cases n with
    | text s =>
      cases ns with
      | nil => rfl
      | cons m ns' =>
        cases m with
        | text s2 => exact absurd h (by simp [noAdjacentTexts])
        | element t a cs => exact h
    | element t a cs => exact h
  · intro s s2 ns' hn hns
    subst hn
    subst hns
    exact absurd h (by simp [noAdjacentTexts])

mutual

theorem nodeTokens_wf (n : XmlNode) : wfNode n = true →
    (nodeTokens n).all wfToken = true
    ∧ List.Chain' (fun x y => isTextTok x = false ∨ isTextTok y = false) (nodeTokens n) := by
  intro h
  cases n with
  | text s =>
    refine ⟨by simpa [nodeTokens, wfToken] using h, ?_⟩
    simp [nodeTokens]
  | element t a cs =>
    have hparts : nameOk t = true ∧ a.all attrOk = true ∧ noAdjacentTexts cs = true
        ∧ wfList cs = true := by
      have h2 : (nameOk t && a.all attrOk && noAdjacentTexts cs && wfList cs) = true := h
      simp only [Bool.and_eq_true] at h2
      exact ⟨h2.1.1.1, h2.1.1.2, h2.1.2, h2.2⟩
    have hrec := listTokens_wf cs hparts.2.2.2 hparts.2.2.1
    constructor
    · rw [show nodeTokens (XmlNode.element t a cs)
        = Token.openTag t a :: (listTokens cs ++ [Token.closeTag t]) from rfl]
      simp only [List.all_cons, List.all_append, Bool.and_eq_true]
      refine ⟨?_, hrec.1, ?_⟩
      · show (nameOk t && a.all attrOk) = true
        simp [hparts.1, hparts.2.1]
      · simp [wfToken, hparts.1]
    · rw [show nodeTokens (XmlNode.element t a cs)
        = Token.openTag t a :: (listTokens cs ++ [Token.closeTag t]) from rfl]
      rw [List.chain'_cons']
      constructor
      · intro y _
        exact Or.inl (by simp [isTextTok])
      · rw [List.chain'_append]
        refine ⟨hrec.2, by simp, ?_⟩
        intro x _ y hy
        simp only [List.head?_cons, Option.mem_def, Option.some.injEq] at hy
        exact Or.inr (by rw [← hy]; simp [isTextTok])

theorem listTokens_wf (ns : List XmlNode) : wfList ns = true → noAdjacentTexts ns = true →
    (listTokens ns).all wfToken = true
    ∧ List.Chain' (fun x y => isTextTok x = false ∨ isTextTok y = false) (listTokens ns) := by
  intro h hadj
  cases ns with
  | nil =>
    constructor
    · rfl
    · simp [listTokens]
  | cons n ns' =>
    have hsplit : wfNode n = true ∧ wfList ns' = true := by
      have h2 : (wfNode n && wfList ns') = true := h
      simpa using h2
    have hadj2 := noAdjacentTexts_cons n ns' hadj
    have hn := nodeTokens_wf n hsplit.1
    have hns := listTokens_wf ns' hsplit.2 hadj2.1
    rw [show listTokens (n :: ns') = nodeTokens n ++ listTokens ns' from rfl]
    constructor
    · simp only [List.all_append, Bool.and_eq_true]
      exact ⟨hn.1, hns.1⟩
    · rw [List.chain'_append]
      refine ⟨hn.2, hns.2, ?_⟩
      intro x hx y hy
      by_cases hxt : isTextTok x = true
      · by_cases hyt : isTextTok y = true
        · obtain ⟨s, hs⟩ := nodeTokens_last_text n x (Option.mem_def.mp hx) hxt
          obtain ⟨s2, ns2, hs2⟩ := listTokens_head_text ns' y (Option.mem_def.mp hy) hyt
          exact (hadj2.2 s s2 ns2 hs hs2).elim
        · exact Or.inr (by simpa using hyt)
      · exact Or.inl (by simpa using hxt)

end

/-- The document adapter inverts itself on well-formed documents:
re-parsing a serialized tree yields the tree back. -/
theorem parseXml_serializeXml (n : XmlNode) (h : wfNode n = true) :
    parseXml (serializeXml n) = some n := by
  unfold parseXml serializeXml
  rw [show (String.mk (renderTokens (nodeTokens n))).data = renderTokens (nodeTokens n)
    from rfl]
  rw [lexTokens_render (nodeTokens n) ((renderTokens (nodeTokens n)).length + 1)
    (nodeTokens_wf n h).1
    (nodeTokens_wf n h).2
    (Nat.lt_succ_self _)]
  show (match runTokens (nodeTokens n) [] [] with
    | some [m] => some m
    | _ => none) = some n
  rw [runTokens_roundtrip n]

/-- C5: for every well-formed project document, the collections
(`files`, `importedTargets`, `sqlCmdVariables`) derived by loading the
document that results from serializing the unmutated tree and re-parsing
it are exactly the collections derived by the first load. -/
theorem c5_load_serialize_reload (projectFilePath : String) (doc doc2 : XmlNode)
    (hwf : wfNode doc = true) (hparse : parseXml (serializeXml doc) = some doc2) :
    loadCollections projectFilePath doc2 = loadCollections projectFilePath doc := by
  have h := parseXml_serializeXml doc hwf
  rw [h] at hparse
  injection hparse with hparse
  rw [← hparse]

set_option maxRecDepth 100000 in
/-- C5, witnessed on a document exercising all three collections. -/
theorem c5_load_serialize_reload_witness :
    wfNode sampleProjectDoc = true
    ∧ parseXml (serializeXml sampleProjectDoc) = some sampleProjectDoc
    ∧ loadCollections "/proj/p.sqlproj" sampleProjectDoc
        = loadCollections "/proj/p.sqlproj" sampleProjectDoc :=
  ⟨by decide, by decide,
    c5_load_serialize_reload "/proj/p.sqlproj" sampleProjectDoc sampleProjectDoc
      (by decide) (by decide)⟩

end SqlProj
